import Mathlib

/-!
Verification of the FlexLibs analyzer (`src/flexlibs2_analyzer.py`).

This file gives a shallow embedding of the analyzer: docstring parsing,
the host-call scanner over a model of the Python expression AST, the
relationship classifier, method/class analysis, the per-file/report
aggregation, and the LibLCM cross-reference validator.  Python strings
are Lean `String`s; the handful of string primitives the source relies
on (`strip`, `split`, `in`, `startswith`, `endswith`, the two regular
expressions) are implemented structurally over character lists so that
every definition evaluates inside the kernel.  Machine-level concerns
(file IO, `ast.parse`) are modelled by explicit inputs: a source file
carries an `Except` value describing the outcome of reading+parsing it.
-/

/-! ## String primitives (structural models of the Python string operations) -/

/-- Model of Python whitespace for `str.strip` / `\s`. -/
def isPySpace (c : Char) : Bool := c.isWhitespace

/-- Word character for the regex class `\w` (ASCII approximation). -/
def isWordChar (c : Char) : Bool := c.isAlphanum || c == '_'

/-- `str.strip()`: remove leading and trailing whitespace. -/
def strStrip (s : String) : String :=
  String.mk (((s.data.dropWhile isPySpace).reverse.dropWhile isPySpace).reverse)

/-- `str.rstrip()`: remove trailing whitespace. -/
def strRStrip (s : String) : String :=
  String.mk ((s.data.reverse.dropWhile isPySpace).reverse)

/-- `str.rstrip("(")`: remove trailing opening parentheses. -/
def rstripParen (s : String) : String :=
  String.mk ((s.data.reverse.dropWhile (fun c => c == '(')).reverse)

/-- `s.startswith(p)`. -/
def strStartsWith (s p : String) : Bool := p.data.isPrefixOf s.data

/-- `s.endswith(p)`. -/
def strEndsWith (s p : String) : Bool := p.data.reverse.isPrefixOf s.data.reverse

/-- Substring occurrence over character lists (`pat in s` for Python). -/
def subOccurs (pat : List Char) : List Char → Bool
  | [] => pat.isEmpty
  | c :: rest => pat.isPrefixOf (c :: rest) || subOccurs pat rest

/-- `pat in s` for Python strings. -/
def strContains (s pat : String) : Bool := subOccurs pat.data s.data

/-- `c in s` for a single character. -/
def strContainsChar (s : String) (c : Char) : Bool := s.data.contains c

/-- Fuel-driven splitter implementing Python `str.split(sep)` for a nonempty
separator; the fuel is the length of the subject, which always suffices
because each separator hit consumes at least one character. -/
def splitOnListAux (sep : List Char) : Nat → List Char → List Char → List (List Char)
  | _, acc, [] => [acc.reverse]
  | 0, acc, rest => [acc.reverse ++ rest]
  | fuel + 1, acc, c :: rest =>
    if sep.isPrefixOf (c :: rest) then
      acc.reverse :: splitOnListAux sep fuel [] ((c :: rest).drop sep.length)
    else
      splitOnListAux sep fuel (c :: acc) rest

/-- `s.split(sep)` for a nonempty separator. -/
def strSplit (s sep : String) : List String :=
  (splitOnListAux sep.data s.data.length [] s.data).map String.mk

/-- `sep.join(parts)`. -/
def strJoin (sep : String) : List String → String
  | [] => ""
  | [x] => x
  | x :: rest => x ++ sep ++ strJoin sep rest

/-- `s.replace(pat, rep)` (all occurrences, nonempty pattern). -/
def strReplace (s pat rep : String) : String := strJoin rep (strSplit s pat)

/-- `s.lower()` (ASCII). -/
def strLower (s : String) : String := String.mk (s.data.map Char.toLower)

/-- Lexicographic-by-code-point comparison of character lists: the string
order Python's `sorted` uses for `str` keys. -/
def charListLe : List Char → List Char → Bool
  | [], _ => true
  | _ :: _, [] => false
  | a :: as, b :: bs =>
    if a.toNat < b.toNat then true
    else if b.toNat < a.toNat then false
    else charListLe as bs

/-- Python string ordering. -/
def strLe (s t : String) : Bool := charListLe s.data t.data

/-! ## The two regular expressions of the analyzer -/

/-- Matcher for the tail of `I\w+<suffix>`: one or more word characters
followed by the literal suffix (the overall match is a prefix match at the
start of the string, as `re.match` leaves the end unanchored). -/
def iWordTail (suffix : List Char) : List Char → Bool
  | [] => false
  | c :: rest => isWordChar c && (suffix.isPrefixOf rest || iWordTail suffix rest)

/-- `LCM_FACTORY_PATTERN.match(s)` for `re.compile(r'I\w+Factory')`. -/
def lcmFactoryMatch (s : String) : Bool :=
  match s.data with
  | 'I' :: rest => iWordTail "Factory".data rest
  | _ => false

/-- `LCM_REPOSITORY_PATTERN.match(s)` for `re.compile(r'I\w+Repository')`. -/
def lcmRepositoryMatch (s : String) : Bool :=
  match s.data with
  | 'I' :: rest => iWordTail "Repository".data rest
  | _ => false

/-- The arg-line regex of `parse_docstring`:
`^(\w+)(?:\s*\(([^)]+)\))?:\s*(.*)$` applied to an already-stripped line.
Returns (name, type-or-empty, description).  The maximal word run is the
only candidate for `\w+`; the optional parenthesised group is attempted
first and, on failure, the colon must follow the word run directly. -/
def matchArgLine (stripped : String) : Option (String × String × String) :=
  let cs := stripped.data
  let wordRun := cs.takeWhile isWordChar
  let rest := cs.dropWhile isWordChar
  if wordRun.isEmpty then none
  else
    let noGroup : Option (String × String × String) :=
      match rest with
      | ':' :: r => some (String.mk wordRun, "", String.mk (r.dropWhile isPySpace))
      | _ => none
    match rest.dropWhile isPySpace with
    | '(' :: r2 =>
      let inner := r2.takeWhile (fun c => !(c == ')'))
      let r3 := r2.dropWhile (fun c => !(c == ')'))
      if inner.isEmpty then noGroup
      else
        match r3 with
        | ')' :: ':' :: r4 => some (String.mk wordRun, String.mk inner, String.mk (r4.dropWhile isPySpace))
        | _ => noGroup
    | _ => noGroup

/-- Character class `[\w\[\], ]` of the return-type regex. -/
def retTypeAllowed (c : Char) : Bool :=
  isWordChar c || c == '[' || c == ']' || c == ',' || c == ' '

/-- Lazy scan of `([A-Za-z_][\w\[\], ]*?):\s+` after the first character:
at each position first try to close the group on a colon followed by
whitespace, else extend the group by an allowed character. -/
def retTypeScan (acc : List Char) : List Char → Option String
  | [] => none
  | c :: rest =>
    if c == ':' then
      match rest with
      | w :: _ => if isPySpace w then some (String.mk acc.reverse) else none
      | [] => none
    else if retTypeAllowed c then retTypeScan (c :: acc) rest
    else none

/-- The return-type regex of `parse_docstring`:
`^([A-Za-z_][\w\[\], ]*?):\s+` (type-token capture). -/
def matchReturnType (stripped : String) : Option String :=
  match stripped.data with
  | c :: rest => if c.isAlpha || c == '_' then retTypeScan [c] rest else none
  | [] => none

/-! ## Docstring parsing (`parse_docstring`) -/

/-- Per-argument record stored in the `args` mapping of a parsed docstring. -/
structure DocArg where
  type : String
  description : String
deriving DecidableEq, Repr

/-- Result record of `parse_docstring` (the Python `example` key is the
`exampleS` field, since `example` is a Lean keyword). -/
structure ParsedDoc where
  summary : String
  description : String
  args : List (String × DocArg)
  returns : String
  return_type : String
  raises : List String
  exampleS : String
deriving DecidableEq, Repr

def emptyParsedDoc : ParsedDoc :=
  { summary := "", description := "", args := [], returns := "", return_type := ""
    raises := [], exampleS := "" }

/-- Python dict assignment `d[key] = v` on an insertion-ordered map. -/
def setArg (args : List (String × DocArg)) (key : String) (v : DocArg) :
    List (String × DocArg) :=
  if args.any (fun p => p.1 == key) then
    args.map (fun p => if p.1 == key then (p.1, v) else p)
  else args ++ [(key, v)]

/-- `d[key]["description"] += " " + add` on the args map. -/
def addArgDesc (args : List (String × DocArg)) (key add : String) :
    List (String × DocArg) :=
  args.map (fun p =>
    if p.1 == key then (p.1, { p.2 with description := p.2.description ++ " " ++ add })
    else p)

/-- Loop state of `parse_docstring`: result so far, current section name and
the argument a continuation line would extend. -/
structure DocState where
  doc : ParsedDoc
  curSection : String
  curArg : Option String

/-- One iteration of the line loop of `parse_docstring`. -/
def processDocLine (st : DocState) (line : String) : DocState :=
  let stripped := strStrip line
  if strStartsWith stripped "Args:" then { st with curSection := "args" }
  else if strStartsWith stripped "Returns:" || strStartsWith stripped "Yields:" then
    { st with curSection := "returns" }
  else if strStartsWith stripped "Raises:" then { st with curSection := "raises" }
  else if strStartsWith stripped "Example:" then { st with curSection := "example" }
  else if strStartsWith stripped "Note:" || strStartsWith stripped "Notes:" then
    { st with curSection := "notes" }
  else if st.curSection == "description" then
    { st with doc :=
        { st.doc with description :=
            if st.doc.description ≠ "" then st.doc.description ++ "\n" ++ stripped
            else stripped } }
  else if st.curSection == "args" then
    match matchArgLine stripped with
    | some (argName, argType, argDesc) =>
      { st with
        doc := { st.doc with args := setArg st.doc.args argName ⟨argType, argDesc⟩ }
        curArg := some argName }
    | none =>
      match st.curArg with
      | some cur =>
        if stripped ≠ "" then
          { st with doc := { st.doc with args := addArgDesc st.doc.args cur stripped } }
        else st
      | none => st
  else if st.curSection == "returns" then
    if st.doc.returns ≠ "" then
      { st with doc := { st.doc with returns := st.doc.returns ++ " " ++ stripped } }
    else
      { st with doc :=
          { st.doc with
            returns := stripped
            return_type :=
              match matchReturnType stripped with
              | some t => strStrip t
              | none => st.doc.return_type } }
  else if st.curSection == "raises" then
    if stripped ≠ "" then
      { st with doc := { st.doc with raises := st.doc.raises ++ [stripped] } }
    else st
  else if st.curSection == "example" then
    { st with doc :=
        { st.doc with exampleS :=
            if st.doc.exampleS ≠ "" then st.doc.exampleS ++ "\n" ++ line
            else line } }
  else st

/-- Final summary extraction: first sentence (or paragraph) of the description. -/
def finalizeDoc (d : ParsedDoc) : ParsedDoc :=
  if d.description ≠ "" then
    let firstPara := (strSplit d.description "\n\n").headD ""
    { d with summary :=
        if strContainsChar firstPara '.' then (strSplit firstPara ".").headD "" ++ "."
        else firstPara }
  else d

/-- `parse_docstring` (source lines 37-118). -/
def parse_docstring (docstring : String) : ParsedDoc :=
  if docstring == "" then emptyParsedDoc
  else
    let lines := strSplit docstring "\n"
    let st := lines.foldl processDocLine
      { doc := emptyParsedDoc, curSection := "description", curArg := none }
    finalizeDoc st.doc

/-! ## Python constants and the expression AST

A function body is modelled as a forest of expressions: the nodes the
host-call scanner inspects (`ast.Call`, `ast.Attribute`, `ast.Name`,
constants).  Argument and keyword lists are separate mutual inductives so
that all recursions stay structural (and hence kernel-evaluable). -/

inductive PyConst where
  | noneC
  | boolC (b : Bool)
  | intC (n : Int)
  | strC (s : String)
deriving DecidableEq, Repr

mutual
inductive PExpr where
  | name (id : String)
  | constE (c : PyConst)
  | attr (v : PExpr) (a : String)
  | call (f : PExpr) (args : PArgs) (kws : PKwargs)
inductive PArgs where
  | nil
  | cons (hd : PExpr) (tl : PArgs)
inductive PKwargs where
  | nil
  | cons (key : String) (val : PExpr) (tl : PKwargs)
end

mutual
def PExpr.esize : PExpr → Nat
  | .name _ => 1
  | .constE _ => 1
  | .attr v _ => 1 + v.esize
  | .call f args kws => 1 + f.esize + args.esize + kws.esize
def PArgs.esize : PArgs → Nat
  | .nil => 0
  | .cons hd tl => hd.esize + tl.esize
def PKwargs.esize : PKwargs → Nat
  | .nil => 0
  | .cons _ v tl => v.esize + tl.esize
end

def PArgs.toList : PArgs → List PExpr
  | .nil => []
  | .cons hd tl => hd :: tl.toList

def PArgs.ofList : List PExpr → PArgs
  | [] => .nil
  | e :: rest => .cons e (PArgs.ofList rest)

def PKwargs.keys : PKwargs → List String
  | .nil => []
  | .cons k _ tl => k :: tl.keys

def PKwargs.vals : PKwargs → List PExpr
  | .nil => []
  | .cons _ v tl => v :: tl.vals

def PKwargs.pairs : PKwargs → List (String × PExpr)
  | .nil => []
  | .cons k v tl => (k, v) :: tl.pairs

/-- Rendering of a constant by `ast.unparse`.  Python renders string
constants with single quotes; double quotes are used here, which is
immaterial to every substring test the analyzer performs (the one test
involving a quoted string checks both quote styles, see
`detect_code_transformations`). -/
def PyConst.unparseC : PyConst → String
  | .noneC => "None"
  | .boolC b => if b then "True" else "False"
  | .intC n => toString n
  | .strC s => "\"" ++ s ++ "\""

/-- `str(value)` for a constant. -/
def PyConst.pyStr : PyConst → String
  | .noneC => "None"
  | .boolC b => if b then "True" else "False"
  | .intC n => toString n
  | .strC s => s

mutual
/-- `ast.unparse` restricted to the modelled expression grammar. -/
def PExpr.unparse : PExpr → String
  | .name id => id
  | .constE c => c.unparseC
  | .attr v a => v.unparse ++ "." ++ a
  | .call f args kws =>
    f.unparse ++ "(" ++ strJoin ", " (unparseArgList args ++ unparseKwList kws) ++ ")"
def unparseArgList : PArgs → List String
  | .nil => []
  | .cons hd tl => hd.unparse :: unparseArgList tl
def unparseKwList : PKwargs → List String
  | .nil => []
  | .cons k v tl => (k ++ "=" ++ v.unparse) :: unparseKwList tl
end

/-- Child nodes in `ast.iter_child_nodes` order (func, args, keywords). -/
def PExpr.children : PExpr → List PExpr
  | .name _ => []
  | .constE _ => []
  | .attr v _ => [v]
  | .call f args kws => f :: (args.toList ++ kws.vals)

def listEsize (l : List PExpr) : Nat := (l.map PExpr.esize).sum

/-- Fuel-driven breadth-first traversal; with fuel `listEsize queue` this is
exactly `ast.walk` (a FIFO queue seeded with the roots). -/
def walkAux : Nat → List PExpr → List PExpr
  | 0, _ => []
  | _ + 1, [] => []
  | n + 1, e :: rest => e :: walkAux n (rest ++ e.children)

/-- `ast.walk` seeded with a forest of root expressions. -/
def walkBFS (roots : List PExpr) : List PExpr := walkAux (listEsize roots) roots

/-! ## Constant tables of the analyzer -/

/-- `LCM_PROPERTY_SUFFIXES` in source order (Python dicts preserve insertion order). -/
def LCM_PROPERTY_SUFFIXES : List (String × String) :=
  [("OA", "OwningAtomic"), ("OS", "OwningSequence"), ("OC", "OwningCollection"),
   ("RA", "ReferenceAtomic"), ("RS", "ReferenceSequence"), ("RC", "ReferenceCollection")]

/-- `LCM_UTILITIES` (classes with their known-method lists; the scanner only
consults the keys). -/
def LCM_UTILITIES : List (String × List String) :=
  [("TsStringUtils", ["MakeString", "MakeTss", "NormalizeToNFC"]),
   ("ITsString", ["Text", "Length", "get_RunCount"]),
   ("ITsTextProps", ["GetIntProp", "GetStrProp"])]

/-- `TRANSFORMATION_PATTERNS["hvo_resolution"]`. -/
def TRANSFORMATION_hvo_resolution : List String :=
  ["GetObject", "__GetObject", "ObjectOrId", "GetLexEntry", "GetSense"]

/-- `TRANSFORMATION_PATTERNS["ws_default"]`. -/
def TRANSFORMATION_ws_default : List String :=
  ["WSHandle", "__WSHandle", "DefaultVernacularWs", "DefaultAnalysisWs"]

/-- `TRANSFORMATION_PATTERNS["null_coalesce"]` (declared in the source but
the detection function hardcodes its own tests; kept for completeness). -/
def TRANSFORMATION_null_coalesce : List String :=
  ["or ''", "or \"\"", "or None", "if .* else", "?."]

/-- `TRANSFORMATION_PATTERNS["type_conversion"]`. -/
def TRANSFORMATION_type_conversion : List String :=
  ["int(", "str(", "bool(", "list(", "ITsString("]

/-- The allowlist of common LCM property names (lines 596-598). -/
def LCM_COMMON_PROPS : List String :=
  ["Form", "Gloss", "Definition", "Comment", "CitationForm",
   "LexemeFormOA", "MorphTypeRA", "PartOfSpeechRA", "Guid", "Hvo",
   "Owner", "OwningFlid", "ClassID", "ClassName"]

/-- The MultiString operation names (lines 603-604). -/
def MULTISTRING_OPS : List String :=
  ["get_String", "set_String", "BestAnalysisAlternative",
   "BestVernacularAlternative", "CopyAlternatives"]

/-- The mutation-method names of line 579. -/
def MUTATION_METHODS : List String :=
  ["Create", "Add", "Delete", "Remove", "Insert", "Clear", "MoveTo"]

/-! ## Function signatures (`get_function_signature`) -/

/-- Modelled annotation node kinds the analyzer distinguishes
(`ast.Name`, `ast.Constant`, `ast.Subscript` — rendered — and anything else). -/
inductive PyAnn where
  | nameA (id : String)
  | constA (c : PyConst)
  | subscriptA (rendered : String)
  | otherA (rendered : String)
deriving DecidableEq, Repr

/-- One declared formal parameter. -/
structure PyArg where
  arg : String
  ann : Option PyAnn
deriving DecidableEq, Repr

/-- The `ast.arguments` node: positional parameters and their trailing
defaults (defaults align to the end of the parameter list). -/
structure PyArgsDecl where
  args : List PyArg
  defaults : List PExpr

/-- A recorded default value: a constant or a bare identifier. -/
inductive DefaultV where
  | constV (c : PyConst)
  | nameV (id : String)
deriving DecidableEq, Repr

/-- One entry of the `param_details` list (the `description` key is added
later by `analyze_method` when the docstring documents the parameter). -/
structure ParamDetail where
  name : String
  type : String
  default : Option DefaultV
  description : Option String
deriving DecidableEq, Repr

/-- `get_function_signature` (source lines 254-295). -/
def get_function_signature (a : PyArgsDecl) : List String × List ParamDetail :=
  let defaultsStart := a.args.length - a.defaults.length
  a.args.enum.foldl
    (fun acc ia =>
      let i := ia.1
      let arg := ia.2
      if arg.arg == "self" then acc
      else
        let paramInfo : ParamDetail :=
          { name := arg.arg, type := "", default := none, description := none }
        let paramStr := arg.arg
        let step1 : ParamDetail × String :=
          match arg.ann with
          | some (.nameA id) => ({ paramInfo with type := id }, paramStr ++ ": " ++ id)
          | some (.constA c) => ({ paramInfo with type := c.pyStr }, paramStr ++ ": " ++ c.pyStr)
          | some (.subscriptA r) => ({ paramInfo with type := r }, paramStr)
          | some (.otherA _) => (paramInfo, paramStr)
          | none => (paramInfo, paramStr)
        let step2 : ParamDetail × String :=
          if defaultsStart ≤ i && i - defaultsStart < a.defaults.length then
            match a.defaults.getD (i - defaultsStart) (.name "") with
            | .constE c => ({ step1.1 with default := some (.constV c) }, step1.2 ++ "=" ++ c.unparseC)
            | .name id => ({ step1.1 with default := some (.nameV id) }, step1.2 ++ "=" ++ id)
            | _ => step1
          else step1
        (acc.1 ++ [step2.2], acc.2 ++ [step2.1]))
    ([], [])

/-! ## Defaults, parameter usage and textual transformation detection -/

/-- One transformation note (a Python dict with keys drawn from
`type`, `param`, `default`, `pattern`, `description`). -/
structure Transformation where
  ttype : String
  param : Option String
  defaultVal : Option String
  pattern : Option String
  description : Option String
deriving DecidableEq, Repr

/-- `_get_default_value_str` (lines 379-399; the pre-3.8 `NameConstant`
branch is subsumed by the constant case). -/
def getDefaultValueStr : PExpr → String
  | .constE c =>
    match c with
    | .noneC => "None"
    | .boolC b => if b then "True" else "False"
    | .strC s => "\"" ++ s ++ "\""
    | .intC n => toString n
  | .name id => id
  | e => e.unparse

/-- `_extract_default_transformations` (lines 346-376; the `kw_defaults`
binding in the source is dead). -/
def extract_default_transformations (a : PyArgsDecl) : List Transformation :=
  let offset := a.args.length - a.defaults.length
  a.defaults.enum.foldl
    (fun acc id2 =>
      let i := id2.1
      let default := id2.2
      let argIndex := offset + i
      if argIndex < a.args.length then
        let paramName := (a.args.getD argIndex ⟨"", none⟩).arg
        if paramName ≠ "self" then
          let defaultVal := getDefaultValueStr default
          if defaultVal ≠ "" then
            acc ++ [{ ttype := "default_value", param := some paramName,
                      defaultVal := some defaultVal, pattern := none, description := none }]
          else acc
        else acc
      else acc)
    []

/-- Append-if-new on the per-parameter usage map (`_track_param_usage`
bookkeeping). -/
def addUsage (pu : List (String × List String)) (param usage : String) :
    List (String × List String) :=
  match pu.find? (fun p => p.1 == param) with
  | some entry =>
    if usage ∈ entry.2 then pu
    else pu.map (fun p => if p.1 == param then (p.1, p.2 ++ [usage]) else p)
  | none => pu ++ [(param, [usage])]

/-- `_track_param_usage` (lines 402-435) for a call node. -/
def track_param_usage (paramNames : List String) (f : PExpr) (args : PArgs)
    (kws : PKwargs) (param_usage : List (String × List String)) :
    List (String × List String) :=
  let call_target :=
    match f with
    | .attr _ a => a
    | .name id => id
    | _ => ""
  if call_target == "" then param_usage
  else
    let pu := args.toList.enum.foldl
      (fun pu ia =>
        match ia.2 with
        | .name id =>
          if id ∈ paramNames then
            addUsage pu id ("arg[" ++ toString ia.1 ++ "] of " ++ call_target ++ "()")
          else pu
        | _ => pu)
      param_usage
    kws.pairs.foldl
      (fun pu kv =>
        match kv.2 with
        | .name id =>
          if id ∈ paramNames then addUsage pu id (kv.1 ++ "= of " ++ call_target ++ "()")
          else pu
        | _ => pu)
      pu

/-- The HVO/object-resolution block of `_detect_code_transformations`
(lines 453-461): the `for ... break` loop records the first matching
pattern only. -/
def detectHvoNotes (source : String) : List Transformation :=
  match TRANSFORMATION_hvo_resolution.find? (fun p => strContains source p) with
  | some p =>
    [{ ttype := "hvo_resolution", param := none, defaultVal := none, pattern := some p,
       description := some "Resolves HVO (integer) to object if needed" }]
  | none => []

/-- The writing-system-default block (lines 463-471). -/
def detectWsNotes (source : String) : List Transformation :=
  match TRANSFORMATION_ws_default.find? (fun p => strContains source p) with
  | some p =>
    [{ ttype := "ws_default", param := none, defaultVal := none, pattern := some p,
       description := some "Applies default writing system if not specified" }]
  | none => []

/-- The null-coalescing / conditional block (lines 473-484). -/
def detectNullNotes (source : String) : List Transformation :=
  if strContains source " or ''" || strContains source " or \"\"" then
    [{ ttype := "null_coalesce", param := none, defaultVal := none, pattern := some "or ''",
       description := some "Returns empty string instead of None" }]
  else if strContains source " or None" ||
      (strContains source " if " && strContains source " else ") then
    [{ ttype := "conditional", param := none, defaultVal := none, pattern := none,
       description := some "Conditional logic for handling special cases" }]
  else []

/-- The type-conversion block (lines 486-493): no `break`, so one note per
matching pattern. -/
def detectConvNotes (source : String) : List Transformation :=
  (TRANSFORMATION_type_conversion.filter (fun p => strContains source p)).map
    (fun p =>
      { ttype := "type_conversion", param := none, defaultVal := none,
        pattern := some (rstripParen p),
        description := some ("Converts to " ++ rstripParen p) })

/-- `_detect_code_transformations` (lines 438-495), as a function of the
unparsed source text of the method: the four blocks append in a fixed
order. -/
def detect_code_transformations (source : String) : List Transformation :=
  if source == "" then []
  else detectHvoNotes source ++ detectWsNotes source ++ detectNullNotes source ++
    detectConvNotes source

/-- `_get_call_string` (lines 620-631; `ast.unparse` is always available). -/
def getCallString (f : PExpr) : String := f.unparse

/-! ## The host-call scanner (`extract_lcm_calls`) and the classifier -/

inductive MappingType where
  | direct
  | convenience
  | composite
  | pure_python
deriving DecidableEq, Repr

/-- The scanner result (`result` dict of `extract_lcm_calls`). -/
structure LcmResult where
  factories_used : List String
  repositories_used : List String
  properties_accessed : List String
  methods_called : List String
  utilities_used : List String
  mapping_type : MappingType
  param_usage : List (String × List String)
  transformations : List Transformation
deriving DecidableEq, Repr

def emptyLcmResult : LcmResult :=
  { factories_used := [], repositories_used := [], properties_accessed := []
    methods_called := [], utilities_used := [], mapping_type := .pure_python
    param_usage := [], transformations := [] }

/-- `if s not in l: l.append(s)`. -/
def appendIfNew (l : List String) (s : String) : List String :=
  if s ∈ l then l else l ++ [s]

/-- Per-argument recording in the GetService/GetInstance branch (lines
550-557): factory pattern first, else repository pattern. -/
def recordServiceArg (acc : LcmResult) (arg : PExpr) : LcmResult :=
  match arg with
  | .name id =>
    if lcmFactoryMatch id then
      { acc with factories_used := appendIfNew acc.factories_used id }
    else if lcmRepositoryMatch id then
      { acc with repositories_used := appendIfNew acc.repositories_used id }
    else acc
  | _ => acc

/-- Per-argument recording in the ObjectsIn branch (lines 560-564):
repository pattern only. -/
def recordObjectsInArg (acc : LcmResult) (arg : PExpr) : LcmResult :=
  match arg with
  | .name id =>
    if lcmRepositoryMatch id then
      { acc with repositories_used := appendIfNew acc.repositories_used id }
    else acc
  | _ => acc

/-- First suffix of `LCM_PROPERTY_SUFFIXES` that matches (endswith and
strictly longer), mirroring the `for ... break` loop of lines 588-593. -/
def findSuffix (attrName : String) : Option (String × String) :=
  LCM_PROPERTY_SUFFIXES.find?
    (fun p => strEndsWith attrName p.1 && decide (p.1.length < attrName.length))

/-- The utility-class check of lines 566-574 on a call target. -/
def recordUtilityStep (acc : LcmResult) (f : PExpr) : LcmResult :=
  match f with
  | .attr (.name class_name) method_name =>
    if LCM_UTILITIES.any (fun u => u.1 == class_name) then
      { acc with utilities_used :=
          appendIfNew acc.utilities_used (class_name ++ "." ++ method_name) }
    else acc
  | _ => acc

/-- The mutation-verb check of lines 576-582 on a call target. -/
def recordMutationStep (acc : LcmResult) (f : PExpr) : LcmResult :=
  match f with
  | .attr _ method_name =>
    if method_name ∈ MUTATION_METHODS then
      { acc with methods_called :=
          appendIfNew acc.methods_called ("." ++ method_name ++ "()") }
    else acc
  | _ => acc

/-- The property checks of lines 584-607 on an attribute name: the suffix
loop, the common-property allowlist and the MultiString operations. -/
def recordPropertyStep (acc : LcmResult) (attr_name : String) : LcmResult :=
  let acc :=
    match findSuffix attr_name with
    | some st =>
      { acc with properties_accessed :=
          appendIfNew acc.properties_accessed (attr_name ++ " (" ++ st.2 ++ ")") }
    | none => acc
  let acc :=
    if attr_name ∈ LCM_COMMON_PROPS then
      { acc with properties_accessed := appendIfNew acc.properties_accessed attr_name }
    else acc
  if attr_name ∈ MULTISTRING_OPS then
    { acc with methods_called := appendIfNew acc.methods_called ("." ++ attr_name ++ "()") }
  else acc

/-- The body of the `ast.walk` loop of `extract_lcm_calls` (lines 539-607)
for one visited node. -/
def processNode (paramNames : List String) (acc : LcmResult) (child : PExpr) : LcmResult :=
  let acc :=
    match child with
    | .call f args kws =>
      if paramNames ≠ [] then
        { acc with param_usage := track_param_usage paramNames f args kws acc.param_usage }
      else acc
    | _ => acc
  let acc :=
    match child with
    | .call f args _ =>
      let call_str := getCallString f
      let acc :=
        if strContains call_str "GetService" || strContains call_str "GetInstance" then
          args.toList.foldl recordServiceArg acc
        else acc
      let acc :=
        if strContains call_str "ObjectsIn" then args.toList.foldl recordObjectsInArg acc
        else acc
      recordMutationStep (recordUtilityStep acc f) f
    | _ => acc
  match child with
  | .attr _ attr_name => recordPropertyStep acc attr_name
  | _ => acc

/-- The eight-rule decision cascade of `_classify_mapping_type` as the pure
function of the five counts (lines 658-685). -/
def classifyCounts (num_factories num_repos num_unique_props num_methods num_utils : Nat) :
    MappingType :=
  let total_lcm_usage := num_factories + num_repos + num_unique_props + num_methods + num_utils
  if total_lcm_usage = 0 then .pure_python
  else if 1 < num_factories then .composite
  else if num_factories = 1 ∧ (2 < num_unique_props ∨ 1 < num_methods) then .composite
  else if 0 < num_repos ∧ 2 < num_unique_props then .composite
  else if total_lcm_usage = 1 then .direct
  else if num_unique_props = 1 ∧ num_methods ≤ 1 ∧ num_factories = 0 ∧ num_repos = 0 then .direct
  else if num_unique_props ≤ 2 ∧ num_methods = 0 ∧ num_factories = 0 ∧ num_repos = 0 ∧
      num_utils = 0 then .direct
  else .convenience

/-- `_classify_mapping_type` (lines 634-685): derive the five counts from
the scanner result (unique properties deduplicate by base name, i.e. the
part before a `" ("` annotation) and run the cascade. -/
def classify_mapping_type (lcm_data : LcmResult) : MappingType :=
  let num_factories := lcm_data.factories_used.length
  let num_repos := lcm_data.repositories_used.length
  let num_methods := lcm_data.methods_called.length
  let num_utils := lcm_data.utilities_used.length
  let unique_props :=
    (lcm_data.properties_accessed.map (fun p => (strSplit p " (").headD "")).dedup
  let num_unique_props := unique_props.length
  classifyCounts num_factories num_repos num_unique_props num_methods num_utils

/-! ## Function definitions and `extract_lcm_calls` -/

/-- A modelled `ast.FunctionDef`: the docstring field models the value of
`extract_docstring(node)`, the body a forest of the expressions occurring
in the body statements. -/
structure FunctionDef where
  name : String
  argsF : PyArgsDecl
  body : List PExpr
  decorator_list : List PExpr
  returnsAnn : Option PyAnn
  docstring : String

/-- One entry of the `lcm_imports` list. -/
structure LcmImport where
  module : String
  name : String
  asname : Option String
deriving DecidableEq, Repr

/-- A modelled `ast.ImportFrom` statement. -/
structure ImportFromStmt where
  module : String
  names : List (String × Option String)
deriving DecidableEq, Repr

/-- `extract_lcm_imports` (lines 298-313). -/
def extract_lcm_imports (stmts : List ImportFromStmt) : List LcmImport :=
  stmts.foldl
    (fun acc st =>
      if strStartsWith st.module "SIL" then
        acc ++ st.names.map (fun na => { module := st.module, name := na.1, asname := na.2 })
      else acc)
    []

/-- `ast.unparse` of the whole function definition (decorators, header
line, 4-space-indented body), which is what `_detect_code_transformations`
scans. -/
def FunctionDef.unparseDef (fd : FunctionDef) : String :=
  strJoin "" (fd.decorator_list.map (fun d => "@" ++ d.unparse ++ "\n")) ++
    "def " ++ fd.name ++ "(" ++ strJoin ", " (get_function_signature fd.argsF).1 ++ "):\n" ++
    strJoin "\n" (fd.body.map (fun e => "    " ++ e.unparse))

/-- `extract_lcm_calls` (lines 498-617).  The walk visits the default
expressions, the body forest and the decorators, as `ast.walk` of the
whole `FunctionDef` does; the `imported_lcm_names` set built by the source
is never used afterwards. -/
def extract_lcm_calls (node : FunctionDef) (_lcm_imports : List LcmImport) : LcmResult :=
  let param_names := (node.argsF.args.map PyArg.arg).filter (fun a => a ≠ "self")
  let r0 := { emptyLcmResult with
    transformations := extract_default_transformations node.argsF }
  let walkRoots := node.argsF.defaults ++ node.body ++ node.decorator_list
  let r1 := (walkBFS walkRoots).foldl (processNode param_names) r0
  let r2 := { r1 with
    transformations := r1.transformations ++ detect_code_transformations node.unparseDef }
  { r2 with mapping_type := classify_mapping_type r2 }

/-! ## Name-based description and usage-hint synthesis -/

/-- `generate_method_usage_hint` (lines 121-154). -/
def generate_method_usage_hint (method_name : String) (return_type : String) : String :=
  let name_lower := strLower method_name
  if strStartsWith method_name "Get" || strStartsWith method_name "Find" then "retrieval"
  else if strStartsWith method_name "Set" || strStartsWith method_name "Update" then "modification"
  else if strStartsWith method_name "Create" || strStartsWith method_name "Add" ||
      strStartsWith method_name "New" then "creation"
  else if strStartsWith method_name "Delete" || strStartsWith method_name "Remove" then "deletion"
  else if strStartsWith method_name "Is" || strStartsWith method_name "Has" ||
      strStartsWith method_name "Can" then "validation"
  else if strStartsWith method_name "Convert" || strStartsWith method_name "Parse" ||
      strStartsWith method_name "Format" then "conversion"
  else if strStartsWith method_name "Move" || strStartsWith method_name "Copy" then "manipulation"
  else if strStartsWith method_name "Load" || strStartsWith method_name "Read" then "retrieval"
  else if strStartsWith method_name "Save" || strStartsWith method_name "Write" then "persistence"
  else if strContains name_lower "list" || strContains name_lower "all" then "enumeration"
  else if return_type ≠ "" && (strLower return_type == "bool" || strLower return_type == "boolean") then
    "validation"
  else if return_type ≠ "" &&
      (strLower return_type == "list" || strLower return_type == "iterator" ||
        strLower return_type == "iterable" || strStartsWith return_type "List[") then
    "enumeration"
  else "general"

/-- `generate_entity_usage_hint` (lines 157-171; the unused `entity_type`
parameter is dropped; the interface test reads `name[1]`, which in Python
would raise on a one-character name — modelled as not-uppercase). -/
def generate_entity_usage_hint (name category : String) : String :=
  if strContains name "Operations" then
    "Provides operations for working with " ++ category ++ " data in FieldWorks"
  else if strContains name "Repository" then
    "Repository for accessing " ++ category ++ " objects"
  else if strContains name "Factory" then
    "Factory for creating " ++ category ++ " objects"
  else if strContains name "Service" then
    "Service for " ++ category ++ " operations"
  else if strStartsWith name "I" && (name.data.getD 1 ' ').isUpper then
    "Interface defining " ++ category ++ " object structure and behavior"
  else
    "Class for working with " ++ category ++ " data in FieldWorks"

/-- `re.sub('([A-Z])', r' \1', s)`: a space before every uppercase letter. -/
def camelSpace (s : String) : String :=
  String.mk (s.data.flatMap (fun c => if c.isUpper then [' ', c] else [c]))

/-- The literal pattern table of `generate_method_description` in
declaration order. -/
def methodDescPatterns : List (String × String) :=
  [("GetAll", "Returns all objects of this type"),
   ("GetCount", "Returns the count of objects"),
   ("GetGuid", "Returns the unique identifier (GUID) of the object"),
   ("GetOwner", "Returns the owning object"),
   ("GetOwning", "Returns the owning object"),
   ("GetParent", "Returns the parent object"),
   ("GetForm", "Returns the form (text representation) of the object"),
   ("GetName", "Returns the name of the object"),
   ("GetDate", "Returns the date"),
   ("GetDateModified", "Returns when the object was last modified"),
   ("GetDateCreated", "Returns when the object was created"),
   ("SetForm", "Sets the form (text representation) of the object"),
   ("SetName", "Sets the name of the object"),
   ("NumberOf", "Returns the count of"),
   ("AllEntries", "Returns all entries"),
   ("AllSenses", "Returns all senses"),
   ("Create", "Creates a new object"),
   ("Delete", "Deletes the object"),
   ("Add", "Adds an item"),
   ("Remove", "Removes an item"),
   ("Find", "Finds objects matching the criteria"),
   ("Lookup", "Looks up an object by identifier"),
   ("Move", "Moves the object"),
   ("Merge", "Merges objects together"),
   ("Duplicate", "Creates a copy of the object")]

/-- `generate_method_description` (lines 174-251). -/
def generate_method_description (method_name : String) (params : List String)
    (_return_type : String) : String :=
  let name := method_name
  match methodDescPatterns.find? (fun p => strStartsWith name p.1 || strContains name p.1) with
  | some pd =>
    let suffix := strStrip (strReplace name pd.1 "")
    if suffix ≠ "" then
      let words := strLower (strStrip (camelSpace suffix))
      strRStrip (pd.2 ++ " " ++ words)
    else pd.2
  | none =>
    if strStartsWith name "Get" then
      let target := String.mk (name.data.drop 3)
      "Returns the " ++ strLower (strStrip (camelSpace target))
    else if strStartsWith name "Set" then
      let target := String.mk (name.data.drop 3)
      "Sets the " ++ strLower (strStrip (camelSpace target))
    else if strStartsWith name "Is" || strStartsWith name "Has" || strStartsWith name "Can" then
      let target :=
        if strStartsWith name "Is" then String.mk (name.data.drop 2)
        else String.mk (name.data.drop 3)
      "Checks if " ++ strLower (strStrip (camelSpace target))
    else if params ≠ [] then
      "Performs " ++ method_name ++ " operation with " ++ strJoin ", " (params.take 2)
    else
      strStrip (camelSpace name) ++ " operation"

/-! ## Method analysis (`analyze_method`) -/

/-- The method record built by `analyze_method` (Python `example` key is
`exampleS`). -/
structure MethodInfo where
  name : String
  signature : String
  summary : String
  description : String
  usage_hint : String
  parameters : List ParamDetail
  returns : String
  return_type : String
  raises : List String
  exampleS : String
  is_property : Bool
  is_classmethod : Bool
  is_staticmethod : Bool
  lcm_mapping : LcmResult
deriving DecidableEq, Repr

/-- Merge of docstring argument info into one parameter detail
(lines 701-706). -/
def mergeDocParam (docArgs : List (String × DocArg)) (param : ParamDetail) : ParamDetail :=
  match docArgs.find? (fun p => p.1 == param.name) with
  | some da =>
    let param :=
      if da.2.type ≠ "" && param.type == "" then { param with type := da.2.type } else param
    { param with description := some da.2.description }
  | none => param

/-- Decorator test of lines 713-720 (`ast.Name` decorators only). -/
def hasDecoratorName (decorators : List PExpr) (dn : String) : Bool :=
  decorators.any (fun d =>
    match d with
    | .name id => id == dn
    | _ => false)

/-- Return-type extraction from the annotation (lines 723-734). -/
def returnTypeOfAnn : Option PyAnn → String
  | some (.nameA id) => id
  | some (.constA c) => c.pyStr
  | some (.subscriptA r) => r
  | some (.otherA r) => r
  | none => ""

/-- `analyze_method` (lines 688-767; the `class_name` parameter is unused
in the source as well). -/
def analyze_method (node : FunctionDef) (_class_name : String)
    (lcm_imports : List LcmImport) : Option MethodInfo :=
  if strStartsWith node.name "_" && node.name ≠ "__init__" then none
  else
    let ps := get_function_signature node.argsF
    let params := ps.1
    let param_details := ps.2
    let parsed_doc := parse_docstring node.docstring
    let lcm_calls := extract_lcm_calls node lcm_imports
    let param_details := param_details.map (mergeDocParam parsed_doc.args)
    let is_property := hasDecoratorName node.decorator_list "property"
    let is_classmethod := hasDecoratorName node.decorator_list "classmethod"
    let is_staticmethod := hasDecoratorName node.decorator_list "staticmethod"
    let return_type := returnTypeOfAnn node.returnsAnn
    let return_type :=
      if return_type == "" && parsed_doc.return_type ≠ "" then parsed_doc.return_type
      else return_type
    let summary := parsed_doc.summary
    let description := parsed_doc.description
    let sd :=
      if description == "" || description.length < 10 then
        let generated_desc := generate_method_description node.name params return_type
        (if summary == "" then generated_desc else summary,
          if description == "" then generated_desc else description)
      else (summary, description)
    some
      { name := node.name
        signature := node.name ++ "(" ++ strJoin ", " params ++ ")"
        summary := sd.1
        description := sd.2
        usage_hint := generate_method_usage_hint node.name return_type
        parameters := param_details
        returns := parsed_doc.returns
        return_type := return_type
        raises := parsed_doc.raises
        exampleS := parsed_doc.exampleS
        is_property := is_property
        is_classmethod := is_classmethod
        is_staticmethod := is_staticmethod
        lcm_mapping := lcm_calls }

/-! ## Class analysis (`analyze_class`) -/

/-- A class-body statement: a member function definition or anything else. -/
inductive ClassBodyItem where
  | funcB (fd : FunctionDef)
  | otherB

/-- A modelled `ast.ClassDef` (docstring models `extract_docstring`). -/
structure ClassDef where
  name : String
  bases : List PExpr
  body : List ClassBodyItem
  docstring : String

/-- The class record built by `analyze_class` (the Python `namespace` key
is `namespaceS`, `example` is `exampleS`). -/
structure ClassInfo where
  id : String
  name : String
  type : String
  namespaceS : String
  source_file : String
  category : String
  summary : String
  description : String
  usage_hint : String
  exampleS : String
  base_classes : List String
  methods : List MethodInfo
  properties : List MethodInfo
  lcm_dependencies : List String
  tags : List String
deriving DecidableEq, Repr

/-- Category derivation from the module path (lines 796-815). -/
def categoryOfModulePath (module_path : String) : String :=
  if strContains module_path "Lexicon" then "lexicon"
  else if strContains module_path "Grammar" then "grammar"
  else if strContains module_path "TextsWords" then "texts"
  else if strContains module_path "Notebook" then "notebook"
  else if strContains module_path "Lists" then "lists"
  else if strContains module_path "System" then "system"
  else if strContains module_path "Scripture" then "scripture"
  else if strContains module_path "Discourse" then "discourse"
  else if strContains module_path "Reversal" then "reversal"
  else if strContains module_path "Wordform" then "wordform"
  else "general"

/-- Base-class name extraction (lines 776-781). -/
def baseClassNames (bases : List PExpr) : List String :=
  bases.foldl
    (fun acc b =>
      match b with
      | .name id => acc ++ [id]
      | .attr v a => acc ++ [(PExpr.attr v a).unparse]
      | _ => acc)
    []

/-- Ascending-by-name ordering on method records: the key order of
`sorted(methods, key=lambda m: m["name"])`. -/
def methodNameLe (a b : MethodInfo) : Prop := strLe a.name b.name = true

instance : DecidableRel methodNameLe := fun a b =>
  inferInstanceAs (Decidable (strLe a.name b.name = true))

instance : IsTotal MethodInfo methodNameLe := by
  constructor
  have key : ∀ x y : List Char, charListLe x y = true ∨ charListLe y x = true := by
    intro x
    induction x with
    | nil => intro y; left; rfl
    | cons a as ih =>
      intro y
      cases y with
      | nil => right; rfl
      | cons b bs =>
        by_cases h1 : a.toNat < b.toNat
        · left
          simp [charListLe, h1]
        · by_cases h2 : b.toNat < a.toNat
          · right
            simp [charListLe, h1, h2]
          · rcases ih bs with h | h
            · left
              simp [charListLe, h1, h2, h]
            · right
              simp [charListLe, h1, h2, h]
  exact fun a b => key a.name.data b.name.data

instance : IsTrans MethodInfo methodNameLe := by
  constructor
  have key : ∀ x y z : List Char,
      charListLe x y = true → charListLe y z = true → charListLe x z = true := by
    intro x
    induction x with
    | nil => intro y z _ _; rfl
    | cons a as ih =>
      intro y z hxy hyz
      cases y with
      | nil => simp [charListLe] at hxy
      | cons b bs =>
        cases z with
        | nil => simp [charListLe] at hyz
        | cons c cs =>
          simp only [charListLe] at hxy hyz ⊢
          split_ifs at hxy hyz ⊢ <;>
            first
              | rfl
              | omega
              | exact ih bs cs hxy hyz
  exact fun a b c => key a.name.data b.name.data c.name.data

/-- One iteration of the member loop of `analyze_class` (lines 786-793):
analyzed member functions are divided between the property list and the
method list. -/
def classMemberStep (cn : String) (imps : List LcmImport)
    (mp : List MethodInfo × List MethodInfo) (item : ClassBodyItem) :
    List MethodInfo × List MethodInfo :=
  match item with
  | .funcB f =>
    match analyze_method f cn imps with
    | some mi => if mi.is_property then (mp.1, mp.2 ++ [mi]) else (mp.1 ++ [mi], mp.2)
    | none => mp
  | .otherB => mp

/-- `analyze_class` (lines 770-837).  `sorted` is stable, so its result is
the one of a stable insertion sort with the at-most-or-equal key order. -/
def analyze_class (node : ClassDef) (module_path : String)
    (lcm_imports : List LcmImport) : ClassInfo :=
  let parsed_doc := parse_docstring node.docstring
  let base_classes := baseClassNames node.bases
  let mp := node.body.foldl (classMemberStep node.name lcm_imports) ([], [])
  let category := categoryOfModulePath module_path
  { id := node.name
    name := node.name
    type := "class"
    namespaceS := "flexlibs.code." ++ strReplace module_path "/" "."
    source_file := module_path
    category := category
    summary := parsed_doc.summary
    description := parsed_doc.description
    usage_hint := generate_entity_usage_hint node.name category
    exampleS := parsed_doc.exampleS
    base_classes := base_classes
    methods := List.insertionSort methodNameLe mp.1
    properties := mp.2
    lcm_dependencies :=
      (lcm_imports.filter (fun imp => strStartsWith imp.module "SIL.LCModel")).map LcmImport.name
    tags := if strContains node.name "Operations" then [category, "operations"] else [category] }

/-! ## File-level analysis and report aggregation -/

/-- A top-level module statement: a class definition or anything else. -/
inductive ModuleItem where
  | classM (cd : ClassDef)
  | otherM

/-- A successfully parsed module. -/
structure PyModule where
  docstring : String
  importStmts : List ImportFromStmt
  topLevel : List ModuleItem

/-- A discovered source file.  `parsed` models the outcome of
`open`+`read`+`ast.parse`: `.error e` is a file whose text fails to parse
(or read), carrying the exception text. -/
structure SrcFile where
  path : String
  fname : String
  relPath : String
  modulePath : String
  parsed : Except String PyModule

/-- The per-file record built by `analyze_python_file`. -/
structure FileInfo where
  file : String
  module_path : String
  docstring : String
  classes : List ClassInfo
  lcm_imports : List LcmImport

/-- `analyze_python_file` (lines 840-872): on a parse failure the file
yields no record and one warning line naming the file and the error; no
exception escapes. -/
def analyze_python_file (f : SrcFile) : Option FileInfo × List String :=
  match f.parsed with
  | .error e => (none, ["[WARN] Error analyzing " ++ f.path ++ ": " ++ e])
  | .ok m =>
    let lcm_imports := extract_lcm_imports m.importStmts
    let classes := m.topLevel.foldl
      (fun acc item =>
        match item with
        | .classM cd => acc ++ [analyze_class cd f.modulePath lcm_imports]
        | .otherM => acc)
      []
    (some { file := f.relPath, module_path := f.modulePath, docstring := m.docstring,
            classes := classes, lcm_imports := lcm_imports }, [])

/-- The `mapping_types` histogram of the report metadata. -/
structure MappingTypesCount where
  direct : Nat
  convenience : Nat
  composite : Nat
  pure_python : Nat
deriving DecidableEq, Repr

/-- One entry of the flattened `lcm_mapping` cross-reference (the Python
`class` key is `classN`). -/
structure LcmMapEntry where
  classN : String
  method : String
  mapping_type : MappingType
  factories_used : List String
  repositories_used : List String
  properties_accessed : List String
  methods_called : List String
  utilities_used : List String
  lcm_deps : List String
deriving DecidableEq, Repr

/-- The report metadata (`lcm_interfaces_used` is a Python set until the
final `sorted(list(...))`; modelled as a first-occurrence list sorted at
the end). -/
structure Metadata where
  total_classes : Nat
  total_methods : Nat
  total_properties : Nat
  methods_with_return_type : Nat
  files_analyzed : Nat
  categories : List (String × Nat)
  lcm_interfaces_used : List String
  mapping_types : MappingTypesCount
deriving DecidableEq, Repr

def emptyMetadata : Metadata :=
  { total_classes := 0, total_methods := 0, total_properties := 0
    methods_with_return_type := 0, files_analyzed := 0, categories := []
    lcm_interfaces_used := []
    mapping_types := { direct := 0, convenience := 0, composite := 0, pure_python := 0 } }

/-- One value of the category index. -/
structure CategoryEntry where
  description : String
  entities : List String
deriving DecidableEq, Repr

/-- The output document of `analyze_flexlibs2` (the constant `_schema` /
`_source` headers and the wall-clock `_generated_at` timestamp are not
modelled). -/
structure Report where
  entities : List (String × ClassInfo)
  metadata : Metadata
  categoriesIdx : List (String × CategoryEntry)
  lcm_mapping : List (String × LcmMapEntry)
deriving DecidableEq, Repr

/-- Python dict set on the entities map. -/
def setEntity (es : List (String × ClassInfo)) (key : String) (v : ClassInfo) :
    List (String × ClassInfo) :=
  if es.any (fun p => p.1 == key) then es.map (fun p => if p.1 == key then (p.1, v) else p)
  else es ++ [(key, v)]

/-- Python dict set on the lcm_mapping map. -/
def setMapEntry (es : List (String × LcmMapEntry)) (key : String) (v : LcmMapEntry) :
    List (String × LcmMapEntry) :=
  if es.any (fun p => p.1 == key) then es.map (fun p => if p.1 == key then (p.1, v) else p)
  else es ++ [(key, v)]

/-- `if cat not in d: d[cat] = 0` followed by `d[cat] += 1`. -/
def bumpCount (m : List (String × Nat)) (key : String) : List (String × Nat) :=
  if m.any (fun p => p.1 == key) then m.map (fun p => if p.1 == key then (p.1, p.2 + 1) else p)
  else m ++ [(key, 1)]

def bumpMappingType (m : MappingTypesCount) : MappingType → MappingTypesCount
  | .direct => { m with direct := m.direct + 1 }
  | .convenience => { m with convenience := m.convenience + 1 }
  | .composite => { m with composite := m.composite + 1 }
  | .pure_python => { m with pure_python := m.pure_python + 1 }

/-- Incorporation of one analyzed class into the report (lines 921-960). -/
def addClassToReport (acc : Report) (class_info : ClassInfo) : Report :=
  let entity_id := class_info.name
  let acc := { acc with entities := setEntity acc.entities entity_id class_info }
  let md := acc.metadata
  let md := { md with
    total_classes := md.total_classes + 1
    total_methods := md.total_methods + class_info.methods.length
    total_properties := md.total_properties + class_info.properties.length }
  let md := class_info.methods.foldl
    (fun md m =>
      let md :=
        if m.return_type ≠ "" then
          { md with methods_with_return_type := md.methods_with_return_type + 1 }
        else md
      { md with mapping_types := bumpMappingType md.mapping_types m.lcm_mapping.mapping_type })
    md
  let md := { md with categories := bumpCount md.categories class_info.category }
  let md := class_info.lcm_dependencies.foldl
    (fun md dep => { md with lcm_interfaces_used := appendIfNew md.lcm_interfaces_used dep })
    md
  let acc := { acc with metadata := md }
  class_info.methods.foldl
    (fun acc m =>
      let method_key := entity_id ++ "." ++ m.name
      let entry : LcmMapEntry :=
        { classN := entity_id, method := m.name
          mapping_type := m.lcm_mapping.mapping_type
          factories_used := m.lcm_mapping.factories_used
          repositories_used := m.lcm_mapping.repositories_used
          properties_accessed := m.lcm_mapping.properties_accessed
          methods_called := m.lcm_mapping.methods_called
          utilities_used := m.lcm_mapping.utilities_used
          lcm_deps := class_info.lcm_dependencies }
      { acc with lcm_mapping := setMapEntry acc.lcm_mapping method_key entry })
    acc

/-- One iteration of the `rglob` loop of `analyze_flexlibs2` (lines
913-960): skip package markers, analyze, fold in the classes when the file
produced any. -/
def processFileStep (st : Report × List String) (f : SrcFile) : Report × List String :=
  if strStartsWith f.fname "__" then st
  else
    let r := analyze_python_file f
    let st := (st.1, st.2 ++ r.2)
    match r.1 with
    | some fi =>
      if fi.classes ≠ [] then
        let rep := { st.1 with metadata :=
          { st.1.metadata with files_analyzed := st.1.metadata.files_analyzed + 1 } }
        (fi.classes.foldl addClassToReport rep, st.2)
      else st
    | none => st

/-- String ascending order as a relation (for `sorted`). -/
def strLeP (a b : String) : Prop := strLe a b = true

instance : DecidableRel strLeP := fun a b =>
  inferInstanceAs (Decidable (strLe a b = true))

/-- `sorted(list_of_strings)`. -/
def sortStrings (l : List String) : List String := List.insertionSort strLeP l

/-- Category-index construction (lines 966-973). -/
def buildCategoryIdx (entities : List (String × ClassInfo)) :
    List (String × CategoryEntry) :=
  entities.foldl
    (fun cats ec =>
      let cat := ec.2.category
      if cats.any (fun p => p.1 == cat) then
        cats.map (fun p =>
          if p.1 == cat then (p.1, { p.2 with entities := p.2.entities ++ [ec.1] }) else p)
      else cats ++ [(cat, { description := "Operations related to " ++ cat, entities := [ec.1] })])
    []

/-- `analyze_flexlibs2` (lines 875-975) over the discovered file list,
returning the report and the warning log. -/
def analyze_flexlibs2 (files : List SrcFile) : Report × List String :=
  let init : Report :=
    { entities := [], metadata := emptyMetadata, categoriesIdx := [], lcm_mapping := [] }
  let st := files.foldl processFileStep (init, [])
  let rep := st.1
  let rep := { rep with metadata :=
    { rep.metadata with lcm_interfaces_used := sortStrings rep.metadata.lcm_interfaces_used } }
  ({ rep with categoriesIdx := buildCategoryIdx rep.entities }, st.2)

/-! ## Cross-reference validation (`cross_reference_liblcm`) -/

structure FoundMissing where
  found : List String
  missing : List String
deriving DecidableEq, Repr

/-- The coverage block; the percentage is an exact rational modelling the
Python float (`round(x, 1)` is banker's rounding at one decimal). -/
structure Coverage where
  total_references : Nat
  found_in_liblcm : Nat
  coverage_pct : ℚ
deriving DecidableEq, Repr

structure CrossRefReport where
  validated : Bool
  factories : FoundMissing
  repositories : FoundMissing
  interfaces : FoundMissing
  coverage : Coverage
deriving DecidableEq, Repr

/-- Round-half-to-even on rationals (Python's `round` tie rule). -/
def roundHalfEven (x : ℚ) : ℤ :=
  let f := ⌊x⌋
  if x - f < 1/2 then f
  else if (1 : ℚ)/2 < x - f then f + 1
  else if f % 2 = 0 then f else f + 1

/-- `round(x, 1)` on exact rationals. -/
def pyRound1 (x : ℚ) : ℚ := (roundHalfEven (x * 10) : ℚ) / 10

/-- `all_factories`: every factory symbol referenced by any method of any
entity (a Python set; modelled as the first-occurrence deduplication). -/
def allFactoriesOf (rep : Report) : List String :=
  (rep.entities.flatMap (fun ec => ec.2.methods.map (fun m => m.lcm_mapping.factories_used))).flatten.dedup

/-- `all_repos`. -/
def allReposOf (rep : Report) : List String :=
  (rep.entities.flatMap (fun ec => ec.2.methods.map (fun m => m.lcm_mapping.repositories_used))).flatten.dedup

/-- `cross_reference_liblcm` (lines 1158-1243) on a loaded LibLCM index,
given as its entity-key list.  The missing-file and load-failure branches
return an unvalidated stub and are not modelled; the per-property loop of
lines 1204-1211 has no effect in the source. -/
def cross_reference_liblcm (flexlibs_data : Report) (liblcm_entities : List String) :
    CrossRefReport :=
  let all_factories := allFactoriesOf flexlibs_data
  let all_repos := allReposOf flexlibs_data
  let ifaces := flexlibs_data.metadata.lcm_interfaces_used
  let fFound := all_factories.filter (fun x => x ∈ liblcm_entities)
  let fMissing := all_factories.filter (fun x => x ∉ liblcm_entities)
  let rFound := all_repos.filter (fun x => x ∈ liblcm_entities)
  let rMissing := all_repos.filter (fun x => x ∉ liblcm_entities)
  let iFound := ifaces.filter (fun x => x ∈ liblcm_entities)
  let iMissing := ifaces.filter (fun x => x ∉ liblcm_entities)
  let total_refs := all_factories.length + all_repos.length + ifaces.length
  let found_refs := fFound.length + rFound.length + iFound.length
  { validated := true
    factories := ⟨fFound, fMissing⟩
    repositories := ⟨rFound, rMissing⟩
    interfaces := ⟨iFound, iMissing⟩
    coverage :=
      { total_references := total_refs
        found_in_liblcm := found_refs
        coverage_pct :=
          if 0 < total_refs then pyRound1 ((found_refs : ℚ) / (total_refs : ℚ) * 100)
          else 100 } }

/-! ## Specification-side definitions used to state the claims -/

/-- The eight decision rules of the classifier specification, in order:
each rule is a guard over the five counts together with the kind it
returns; rule 8 is the unconditional default. -/
def specClassifierRules (f r p m u : Nat) : List (Bool × MappingType) :=
  [(decide (f + r + p + m + u = 0), .pure_python),
   (decide (1 < f), .composite),
   (decide (f = 1 ∧ (2 < p ∨ 1 < m)), .composite),
   (decide (0 < r ∧ 2 < p), .composite),
   (decide (f + r + p + m + u = 1), .direct),
   (decide (p = 1 ∧ m ≤ 1 ∧ f = 0 ∧ r = 0), .direct),
   (decide (p ≤ 2 ∧ m = 0 ∧ f = 0 ∧ r = 0 ∧ u = 0), .direct),
   (true, .convenience)]

/-- Result of the first matching rule in a rule list. -/
def firstMatchingRule : List (Bool × MappingType) → MappingType
  | [] => .convenience
  | (g, k) :: rest => if g then k else firstMatchingRule rest

/-- The call-target text contains `GetService` or `GetInstance`. -/
def isServiceCall (f : PExpr) : Bool :=
  strContains (getCallString f) "GetService" || strContains (getCallString f) "GetInstance"

/-- The call-target text contains `ObjectsIn`. -/
def isObjectsInCall (f : PExpr) : Bool := strContains (getCallString f) "ObjectsIn"

/-- The condition under which one visited node makes the scanner record the
identifier `s` as a factory use. -/
def nodeAddsFactory (e : PExpr) (s : String) : Prop :=
  match e with
  | .call f args _ =>
    isServiceCall f = true ∧ PExpr.name s ∈ args.toList ∧ lcmFactoryMatch s = true
  | _ => False

/-- The condition under which one visited node makes the scanner record the
identifier `s` as a repository use. -/
def nodeAddsRepository (e : PExpr) (s : String) : Prop :=
  match e with
  | .call f args _ =>
    (isServiceCall f = true ∧ PExpr.name s ∈ args.toList ∧
      lcmFactoryMatch s = false ∧ lcmRepositoryMatch s = true) ∨
    (isObjectsInCall f = true ∧ PExpr.name s ∈ args.toList ∧ lcmRepositoryMatch s = true)
  | _ => False

/-- The condition under which one visited node makes the scanner append the
string `m` to the called-method list (mutation verbs on call nodes,
MultiString operations on attribute nodes). -/
def nodeAddsMethodStr (e : PExpr) (m : String) : Prop :=
  match e with
  | .call (.attr _ mName) _ _ => mName ∈ MUTATION_METHODS ∧ m = "." ++ mName ++ "()"
  | .attr _ aName => aName ∈ MULTISTRING_OPS ∧ m = "." ++ aName ++ "()"
  | _ => False

/-- A call node whose function is an attribute named `v`. -/
def nodeIsMutationCall (e : PExpr) (v : String) : Prop :=
  match e with
  | .call (.attr _ mName) _ _ => mName = v
  | _ => False

/-- Count of transformation notes of one family. -/
def countFamily (ts : List Transformation) (fam : String) : Nat :=
  ts.countP (fun t => t.ttype == fam)

/-- The C4 claim property: at most one note per family. -/
def atMostOnePerFamily (ts : List Transformation) : Prop :=
  countFamily ts "hvo_resolution" ≤ 1 ∧ countFamily ts "ws_default" ≤ 1 ∧
    countFamily ts "null_coalesce" ≤ 1 ∧ countFamily ts "type_conversion" ≤ 1

/-- Family rank of a transformation note, in the fixed emission order of
`_detect_code_transformations`. -/
def famIdx (t : Transformation) : Nat :=
  if t.ttype == "hvo_resolution" then 0
  else if t.ttype == "ws_default" then 1
  else if t.ttype == "null_coalesce" || t.ttype == "conditional" then 2
  else 3

/-- The analyzed member records of a class body in declaration order. -/
def analyzedMembers (node : ClassDef) (lcm_imports : List LcmImport) : List MethodInfo :=
  node.body.flatMap
    (fun item =>
      match item with
      | .funcB f => (analyze_method f node.name lcm_imports).toList
      | .otherB => [])

/-! ## Concrete fixtures for counterexamples and witnesses -/

/-- A `(self)` parameter list. -/
def noParamsDecl : PyArgsDecl := { args := [⟨"self", none⟩], defaults := [] }

/-- A minimal method: given name, given body, no decorators, no docstring. -/
def mkSimpleFd (n : String) (body : List PExpr) : FunctionDef :=
  { name := n, argsF := noParamsDecl, body := body, decorator_list := []
    returnsAnn := none, docstring := "" }

/-- `ServiceLocator.GetService(<id>)`. -/
def svcCallExpr (f : String) : PExpr :=
  .call (.attr (.name "ServiceLocator") "GetService") (.cons (.name f) .nil) .nil

/-- `repo.ObjectsIn(ILexEntryFactory)`: an ObjectsIn call whose positional
argument matches the factory naming convention. -/
def objectsInFactoryBody : List PExpr :=
  [.call (.attr (.name "repo") "ObjectsIn") (.cons (.name "ILexEntryFactory") .nil) .nil]

def objectsInFactoryFd : FunctionDef := mkSimpleFd "GetAllThings" objectsInFactoryBody

/-- `x.Move()`: a call of the mutation verb `move` of the specification. -/
def moveCallFd : FunctionDef := mkSimpleFd "DoMove" [.call (.attr (.name "x") "Move") .nil .nil]

/-- `int(str(x))`: two type-coercion idioms in one body. -/
def doubleConvExpr : PExpr :=
  .call (.name "int") (.cons (.call (.name "str") (.cons (.name "x") .nil) .nil) .nil) .nil

def doubleConvFd : FunctionDef := mkSimpleFd "Coerce" [doubleConvExpr]

/-- A class whose only member is `__init__`. -/
def initOnlyClass : ClassDef :=
  { name := "COnly", bases := [], body := [.funcB (mkSimpleFd "__init__" [])], docstring := "" }

/-- A small well-parsed module: one class with one factory-using method. -/
def sampleMethodFd : FunctionDef := mkSimpleFd "GetThing" [svcCallExpr "ILexEntryFactory"]

def sampleClass : ClassDef :=
  { name := "EntryOps", bases := [], body := [.funcB sampleMethodFd], docstring := "" }

def sampleModule : PyModule :=
  { docstring := "", importStmts := [], topLevel := [.classM sampleClass] }

def goodFile : SrcFile :=
  { path := "/repo/flexlibs2/code/Lexicon/Entry.py", fname := "Entry.py"
    relPath := "Lexicon/Entry.py", modulePath := "Lexicon/Entry", parsed := .ok sampleModule }

def sampleClass2 : ClassDef :=
  { name := "SenseOps", bases := [], body := [.funcB (mkSimpleFd "GetGloss" [])], docstring := "" }

def sampleModule2 : PyModule :=
  { docstring := "", importStmts := [], topLevel := [.classM sampleClass2] }

def goodFile2 : SrcFile :=
  { path := "/repo/flexlibs2/code/Lexicon/Sense.py", fname := "Sense.py"
    relPath := "Lexicon/Sense.py", modulePath := "Lexicon/Sense", parsed := .ok sampleModule2 }

/-- A file whose text fails to parse. -/
def badFile : SrcFile :=
  { path := "/repo/flexlibs2/code/Broken.py", fname := "Broken.py"
    relPath := "Broken.py", modulePath := "Broken"
    parsed := .error "invalid syntax (Broken.py, line 3)" }

/-! ## Theorems -/

/-- C1: the relationship classifier, as a pure function of the five counts
(factories, repositories, unique properties, mutation methods, utilities),
equals the first-match evaluation of the eight ordered decision rules; in
particular at factories = 1, repositories = 0, unique properties = 3,
mutations = 0, utilities = 0 it returns `composite` (rule 3), not
`convenience`. -/
theorem classifier_is_first_match_of_eight_rules (f r p m u : Nat) :
    classifyCounts f r p m u = firstMatchingRule (specClassifierRules f r p m u) ∧
    classifyCounts 1 0 3 0 0 = MappingType.composite ∧
    classifyCounts 1 0 3 0 0 ≠ MappingType.convenience := by
  refine ⟨?_, by decide, by decide⟩
  unfold classifyCounts
  simp only [specClassifierRules, firstMatchingRule, decide_eq_true_eq]
  split_ifs <;> rfl

/-- Every expression has positive size. -/
theorem esize_pos (e : PExpr) : 0 < e.esize := by
  cases e <;> simp [PExpr.esize]

theorem listEsize_nil : listEsize [] = 0 := rfl

theorem listEsize_cons (e : PExpr) (l : List PExpr) :
    listEsize (e :: l) = e.esize + listEsize l := by
  simp [listEsize]

theorem listEsize_append (l1 l2 : List PExpr) :
    listEsize (l1 ++ l2) = listEsize l1 + listEsize l2 := by
  simp [listEsize]

theorem listEsize_toList : ∀ a : PArgs, listEsize a.toList = a.esize
  | .nil => rfl
  | .cons hd tl => by
    simp [PArgs.toList, PArgs.esize, listEsize_cons, listEsize_toList tl]

theorem listEsize_vals : ∀ k : PKwargs, listEsize k.vals = k.esize
  | .nil => rfl
  | .cons key v tl => by
    simp [PKwargs.vals, PKwargs.esize, listEsize_cons, listEsize_vals tl]

theorem listEsize_children_lt (e : PExpr) : listEsize e.children < e.esize := by
  cases e with
  | name id => simp [PExpr.children, PExpr.esize, listEsize_nil]
  | constE c => simp [PExpr.children, PExpr.esize, listEsize_nil]
  | attr v a => simp [PExpr.children, PExpr.esize, listEsize_cons, listEsize_nil]
  | call f args kws =>
    simp [PExpr.children, PExpr.esize, listEsize_cons, listEsize_append,
      listEsize_toList, listEsize_vals]
    omega

theorem walkAux_nil_any (n : Nat) : walkAux n [] = [] := by
  cases n <;> rfl

/-- Any sufficient fuel computes the same traversal as the canonical fuel. -/
theorem walkAux_canon (n : Nat) :
    ∀ l, listEsize l ≤ n → walkAux n l = walkAux (listEsize l) l := by
  induction n using Nat.strong_induction_on with
  | _ n ih =>
    intro l hn
    match l with
    | [] => rw [walkAux_nil_any, listEsize_nil, walkAux_nil_any]
    | e :: rest =>
      have hepos := esize_pos e
      have hl : listEsize (e :: rest) = e.esize + listEsize rest := listEsize_cons e rest
      have hq : listEsize (rest ++ e.children) < listEsize (e :: rest) := by
        rw [listEsize_append, hl]
        have := listEsize_children_lt e
        omega
      obtain ⟨n2, rfl⟩ : ∃ n2, n = n2 + 1 := ⟨n - 1, by omega⟩
      obtain ⟨L, hL⟩ : ∃ L, listEsize (e :: rest) = L + 1 :=
        ⟨listEsize (e :: rest) - 1, by omega⟩
      rw [hL]
      show e :: walkAux n2 (rest ++ e.children) = e :: walkAux L (rest ++ e.children)
      congr 1
      rw [ih n2 (by omega) _ (by omega), ih L (by omega) _ (by omega)]

theorem walkBFS_nil : walkBFS [] = [] := rfl

/-- The defining recursion of the breadth-first `ast.walk` queue. -/
theorem walkBFS_cons (e : PExpr) (rest : List PExpr) :
    walkBFS (e :: rest) = e :: walkBFS (rest ++ e.children) := by
  unfold walkBFS
  have hepos := esize_pos e
  have hq : listEsize (rest ++ e.children) < listEsize (e :: rest) := by
    rw [listEsize_append, listEsize_cons]
    have := listEsize_children_lt e
    omega
  obtain ⟨L, hL⟩ : ∃ L, listEsize (e :: rest) = L + 1 :=
    ⟨listEsize (e :: rest) - 1, by rw [listEsize_cons]; omega⟩
  rw [hL]
  show e :: walkAux L (rest ++ e.children) =
    e :: walkAux (listEsize (rest ++ e.children)) (rest ++ e.children)
  congr 1
  exact walkAux_canon L _ (by omega)

theorem mem_appendIfNew (l : List String) (x s : String) :
    s ∈ appendIfNew l x ↔ s ∈ l ∨ s = x := by
  unfold appendIfNew
  split_ifs with h
  · constructor
    · exact Or.inl
    · rintro (hs | rfl)
      · exact hs
      · exact h
  · simp

theorem nodup_appendIfNew (l : List String) (x : String) (h : l.Nodup) :
    (appendIfNew l x).Nodup := by
  unfold appendIfNew
  split_ifs with hx
  · exact h
  · simp [List.nodup_append, h]
    intro hmem
    exact hx hmem

theorem rsa_factories_mem (acc : LcmResult) (a : PExpr) (s : String) :
    s ∈ (recordServiceArg acc a).factories_used ↔
      s ∈ acc.factories_used ∨ (a = PExpr.name s ∧ lcmFactoryMatch s = true) := by
  cases a with
  | name id =>
    simp only [recordServiceArg]
    split_ifs with hf hr
    · rw [mem_appendIfNew]
      constructor
      · rintro (h | rfl)
        · exact Or.inl h
        · exact Or.inr ⟨rfl, hf⟩
      · rintro (h | ⟨heq, hm⟩)
        · exact Or.inl h
        · injection heq with h2
          exact Or.inr h2.symm
    · constructor
      · exact Or.inl
      · rintro (h | ⟨heq, hm⟩)
        · exact h
        · injection heq with h2
          subst h2
          exact absurd hm hf
    · constructor
      · exact Or.inl
      · rintro (h | ⟨heq, hm⟩)
        · exact h
        · injection heq with h2
          subst h2
          exact absurd hm hf
  | constE c => simp [recordServiceArg]
  | attr v x => simp [recordServiceArg]
  | call f g k => simp [recordServiceArg]

theorem rsa_repos_mem (acc : LcmResult) (a : PExpr) (s : String) :
    s ∈ (recordServiceArg acc a).repositories_used ↔
      s ∈ acc.repositories_used ∨
        (a = PExpr.name s ∧ lcmFactoryMatch s = false ∧ lcmRepositoryMatch s = true) := by
  cases a with
  | name id =>
    simp only [recordServiceArg]
    split_ifs with hf hr
    · constructor
      · exact Or.inl
      · rintro (h | ⟨heq, hm, _⟩)
        · exact h
        · injection heq with h2
          subst h2
          rw [hf] at hm
          exact absurd hm (by simp)
    · rw [mem_appendIfNew]
      constructor
      · rintro (h | rfl)
        · exact Or.inl h
        · exact Or.inr ⟨rfl, by simpa using hf, hr⟩
      · rintro (h | ⟨heq, _, hm⟩)
        · exact Or.inl h
        · injection heq with h2
          exact Or.inr h2.symm
    · constructor
      · exact Or.inl
      · rintro (h | ⟨heq, _, hm⟩)
        · exact h
        · injection heq with h2
          subst h2
          exact absurd hm hr
  | constE c => simp [recordServiceArg]
  | attr v x => simp [recordServiceArg]
  | call f g k => simp [recordServiceArg]

theorem roa_factories (acc : LcmResult) (a : PExpr) :
    (recordObjectsInArg acc a).factories_used = acc.factories_used := by
  cases a <;> simp only [recordObjectsInArg] <;> try rfl
  split_ifs <;> rfl

theorem roa_repos_mem (acc : LcmResult) (a : PExpr) (s : String) :
    s ∈ (recordObjectsInArg acc a).repositories_used ↔
      s ∈ acc.repositories_used ∨ (a = PExpr.name s ∧ lcmRepositoryMatch s = true) := by
  cases a with
  | name id =>
    simp only [recordObjectsInArg]
    split_ifs with hr
    · rw [mem_appendIfNew]
      constructor
      · rintro (h | rfl)
        · exact Or.inl h
        · exact Or.inr ⟨rfl, hr⟩
      · rintro (h | ⟨heq, hm⟩)
        · exact Or.inl h
        · injection heq with h2
          exact Or.inr h2.symm
    · constructor
      · exact Or.inl
      · rintro (h | ⟨heq, hm⟩)
        · exact h
        · injection heq with h2
          subst h2
          exact absurd hm hr
  | constE c => simp [recordObjectsInArg]
  | attr v x => simp [recordObjectsInArg]
  | call f g k => simp [recordObjectsInArg]

theorem rsa_methods (acc : LcmResult) (a : PExpr) :
    (recordServiceArg acc a).methods_called = acc.methods_called := by
  cases a <;> simp only [recordServiceArg] <;> try rfl
  split_ifs <;> rfl

theorem roa_methods (acc : LcmResult) (a : PExpr) :
    (recordObjectsInArg acc a).methods_called = acc.methods_called := by
  cases a <;> simp only [recordObjectsInArg] <;> try rfl
  split_ifs <;> rfl

theorem utilStep_factories (acc : LcmResult) (f : PExpr) :
    (recordUtilityStep acc f).factories_used = acc.factories_used := by
  unfold recordUtilityStep
  cases f with
  | attr v mn => cases v <;> dsimp only <;> try rfl
                 split_ifs <;> rfl
  | name id => rfl
  | constE c => rfl
  | call a b c => rfl

theorem utilStep_repos (acc : LcmResult) (f : PExpr) :
    (recordUtilityStep acc f).repositories_used = acc.repositories_used := by
  unfold recordUtilityStep
  cases f with
  | attr v mn => cases v <;> dsimp only <;> try rfl
                 split_ifs <;> rfl
  | name id => rfl
  | constE c => rfl
  | call a b c => rfl

theorem utilStep_methods (acc : LcmResult) (f : PExpr) :
    (recordUtilityStep acc f).methods_called = acc.methods_called := by
  unfold recordUtilityStep
  cases f with
  | attr v mn => cases v <;> dsimp only <;> try rfl
                 split_ifs <;> rfl
  | name id => rfl
  | constE c => rfl
  | call a b c => rfl

theorem mutStep_factories (acc : LcmResult) (f : PExpr) :
    (recordMutationStep acc f).factories_used = acc.factories_used := by
  unfold recordMutationStep
  cases f <;> dsimp only <;> try rfl
  split_ifs <;> rfl

theorem mutStep_repos (acc : LcmResult) (f : PExpr) :
    (recordMutationStep acc f).repositories_used = acc.repositories_used := by
  unfold recordMutationStep
  cases f <;> dsimp only <;> try rfl
  split_ifs <;> rfl

theorem mutStep_methods_mem (acc : LcmResult) (f : PExpr) (m : String) :
    m ∈ (recordMutationStep acc f).methods_called ↔
      m ∈ acc.methods_called ∨
        (match f with
          | .attr _ mn => mn ∈ MUTATION_METHODS ∧ m = "." ++ mn ++ "()"
          | _ => False) := by
  unfold recordMutationStep
  cases f with
  | attr v mn =>
    dsimp only
    split_ifs with hmn
    · rw [mem_appendIfNew]
      constructor
      · rintro (h | rfl)
        · exact Or.inl h
        · exact Or.inr ⟨hmn, rfl⟩
      · rintro (h | ⟨_, rfl⟩)
        · exact Or.inl h
        · exact Or.inr rfl
    · constructor
      · exact Or.inl
      · rintro (h | ⟨hm, _⟩)
        · exact h
        · exact absurd hm hmn
  | name id => simp
  | constE c => simp
  | call a b c => simp

theorem propStep_factories (acc : LcmResult) (an : String) :
    (recordPropertyStep acc an).factories_used = acc.factories_used := by
  unfold recordPropertyStep
  cases h : findSuffix an <;> simp only [h] <;> split_ifs <;> rfl

theorem propStep_repos (acc : LcmResult) (an : String) :
    (recordPropertyStep acc an).repositories_used = acc.repositories_used := by
  unfold recordPropertyStep
  cases h : findSuffix an <;> simp only [h] <;> split_ifs <;> rfl

theorem propStep_methods_mem (acc : LcmResult) (an m : String) :
    m ∈ (recordPropertyStep acc an).methods_called ↔
      m ∈ acc.methods_called ∨ (an ∈ MULTISTRING_OPS ∧ m = "." ++ an ++ "()") := by
  unfold recordPropertyStep
  cases h : findSuffix an <;> simp only [h] <;> split_ifs with h1 h2 <;>
    first
      | (rw [mem_appendIfNew]
         constructor
         · rintro (hm | rfl)
           · exact Or.inl hm
           · exact Or.inr ⟨by assumption, rfl⟩
         · rintro (hm | ⟨_, rfl⟩)
           · exact Or.inl hm
           · exact Or.inr rfl)
      | (constructor
         · exact Or.inl
         · rintro (hm | ⟨hmem, _⟩)
           · exact hm
           · first
             | exact absurd hmem h2
             | exact absurd hmem h1)

theorem rsa_factories_nodup (acc : LcmResult) (a : PExpr)
    (h : acc.factories_used.Nodup) : (recordServiceArg acc a).factories_used.Nodup := by
  cases a <;> simp only [recordServiceArg] <;> try exact h
  split_ifs
  · exact nodup_appendIfNew _ _ h
  · exact h
  · exact h

theorem rsa_repos_nodup (acc : LcmResult) (a : PExpr)
    (h : acc.repositories_used.Nodup) : (recordServiceArg acc a).repositories_used.Nodup := by
  cases a <;> simp only [recordServiceArg] <;> try exact h
  split_ifs
  · exact h
  · exact nodup_appendIfNew _ _ h
  · exact h

theorem roa_repos_nodup (acc : LcmResult) (a : PExpr)
    (h : acc.repositories_used.Nodup) : (recordObjectsInArg acc a).repositories_used.Nodup := by
  cases a <;> simp only [recordObjectsInArg] <;> try exact h
  split_ifs
  · exact nodup_appendIfNew _ _ h
  · exact h

theorem mutStep_methods_nodup (acc : LcmResult) (f : PExpr)
    (h : acc.methods_called.Nodup) : (recordMutationStep acc f).methods_called.Nodup := by
  unfold recordMutationStep
  cases f <;> dsimp only <;> try exact h
  split_ifs
  · exact nodup_appendIfNew _ _ h
  · exact h

theorem propStep_methods_nodup (acc : LcmResult) (an : String)
    (h : acc.methods_called.Nodup) : (recordPropertyStep acc an).methods_called.Nodup := by
  unfold recordPropertyStep
  cases hs : findSuffix an <;> simp only [hs] <;> split_ifs <;>
    first | exact h | exact nodup_appendIfNew _ _ h

theorem foldl_rsa_factories_mem (argsL : List PExpr) (acc : LcmResult) (s : String) :
    s ∈ (argsL.foldl recordServiceArg acc).factories_used ↔
      s ∈ acc.factories_used ∨ (PExpr.name s ∈ argsL ∧ lcmFactoryMatch s = true) := by
  induction argsL generalizing acc with
  | nil => simp
  | cons a rest ih =>
    rw [List.foldl_cons, ih, rsa_factories_mem, List.mem_cons]
    constructor
    · rintro ((h | ⟨heq, hm⟩) | ⟨hmem, hm⟩)
      · exact Or.inl h
      · exact Or.inr ⟨Or.inl heq.symm, hm⟩
      · exact Or.inr ⟨Or.inr hmem, hm⟩
    · rintro (h | ⟨heq | hmem, hm⟩)
      · exact Or.inl (Or.inl h)
      · exact Or.inl (Or.inr ⟨heq.symm, hm⟩)
      · exact Or.inr ⟨hmem, hm⟩

theorem foldl_rsa_repos_mem (argsL : List PExpr) (acc : LcmResult) (s : String) :
    s ∈ (argsL.foldl recordServiceArg acc).repositories_used ↔
      s ∈ acc.repositories_used ∨
        (PExpr.name s ∈ argsL ∧ lcmFactoryMatch s = false ∧ lcmRepositoryMatch s = true) := by
  induction argsL generalizing acc with
  | nil => simp
  | cons a rest ih =>
    rw [List.foldl_cons, ih, rsa_repos_mem, List.mem_cons]
    constructor
    · rintro ((h | ⟨heq, hm⟩) | ⟨hmem, hm⟩)
      · exact Or.inl h
      · exact Or.inr ⟨Or.inl heq.symm, hm⟩
      · exact Or.inr ⟨Or.inr hmem, hm⟩
    · rintro (h | ⟨heq | hmem, hm⟩)
      · exact Or.inl (Or.inl h)
      · exact Or.inl (Or.inr ⟨heq.symm, hm⟩)
      · exact Or.inr ⟨hmem, hm⟩

theorem foldl_roa_factories (argsL : List PExpr) (acc : LcmResult) :
    (argsL.foldl recordObjectsInArg acc).factories_used = acc.factories_used := by
  induction argsL generalizing acc with
  | nil => rfl
  | cons a rest ih => rw [List.foldl_cons, ih, roa_factories]

theorem foldl_roa_repos_mem (argsL : List PExpr) (acc : LcmResult) (s : String) :
    s ∈ (argsL.foldl recordObjectsInArg acc).repositories_used ↔
      s ∈ acc.repositories_used ∨ (PExpr.name s ∈ argsL ∧ lcmRepositoryMatch s = true) := by
  induction argsL generalizing acc with
  | nil => simp
  | cons a rest ih =>
    rw [List.foldl_cons, ih, roa_repos_mem, List.mem_cons]
    constructor
    · rintro ((h | ⟨heq, hm⟩) | ⟨hmem, hm⟩)
      · exact Or.inl h
      · exact Or.inr ⟨Or.inl heq.symm, hm⟩
      · exact Or.inr ⟨Or.inr hmem, hm⟩
    · rintro (h | ⟨heq | hmem, hm⟩)
      · exact Or.inl (Or.inl h)
      · exact Or.inl (Or.inr ⟨heq.symm, hm⟩)
      · exact Or.inr ⟨hmem, hm⟩

theorem foldl_rsa_methods (argsL : List PExpr) (acc : LcmResult) :
    (argsL.foldl recordServiceArg acc).methods_called = acc.methods_called := by
  induction argsL generalizing acc with
  | nil => rfl
  | cons a rest ih => rw [List.foldl_cons, ih, rsa_methods]

theorem foldl_roa_methods (argsL : List PExpr) (acc : LcmResult) :
    (argsL.foldl recordObjectsInArg acc).methods_called = acc.methods_called := by
  induction argsL generalizing acc with
  | nil => rfl
  | cons a rest ih => rw [List.foldl_cons, ih, roa_methods]

theorem foldl_rsa_factories_nodup (argsL : List PExpr) (acc : LcmResult)
    (h : acc.factories_used.Nodup) :
    (argsL.foldl recordServiceArg acc).factories_used.Nodup := by
  induction argsL generalizing acc with
  | nil => exact h
  | cons a rest ih => exact ih _ (rsa_factories_nodup _ _ h)

theorem foldl_rsa_repos_nodup (argsL : List PExpr) (acc : LcmResult)
    (h : acc.repositories_used.Nodup) :
    (argsL.foldl recordServiceArg acc).repositories_used.Nodup := by
  induction argsL generalizing acc with
  | nil => exact h
  | cons a rest ih => exact ih _ (rsa_repos_nodup _ _ h)

theorem foldl_roa_repos_nodup (argsL : List PExpr) (acc : LcmResult)
    (h : acc.repositories_used.Nodup) :
    (argsL.foldl recordObjectsInArg acc).repositories_used.Nodup := by
  induction argsL generalizing acc with
  | nil => exact h
  | cons a rest ih => exact ih _ (roa_repos_nodup _ _ h)

theorem processNode_factories_mem (pn : List String) (acc : LcmResult) (e : PExpr) (s : String) :
    s ∈ (processNode pn acc e).factories_used ↔
      s ∈ acc.factories_used ∨ nodeAddsFactory e s := by
  cases e with
  | call f args kws =>
    simp only [processNode, nodeAddsFactory, isServiceCall]
    rw [mutStep_factories, utilStep_factories]
    split_ifs with hparam hsvc hobj hobj2 <;>
      simp_all [foldl_roa_factories, foldl_rsa_factories_mem]
  | name id => simp [processNode, nodeAddsFactory]
  | constE c => simp [processNode, nodeAddsFactory]
  | attr v an =>
    simp only [processNode, nodeAddsFactory]
    rw [propStep_factories]
    simp

theorem processNode_repos_mem (pn : List String) (acc : LcmResult) (e : PExpr) (s : String) :
    s ∈ (processNode pn acc e).repositories_used ↔
      s ∈ acc.repositories_used ∨ nodeAddsRepository e s := by
  cases e with
  | call f args kws =>
    simp only [processNode, nodeAddsRepository, isServiceCall, isObjectsInCall]
    rw [mutStep_repos, utilStep_repos]
    split_ifs with hparam hsvc hobj hobj2 <;>
      simp_all [foldl_roa_repos_mem, foldl_rsa_repos_mem] <;> tauto
  | name id => simp [processNode, nodeAddsRepository]
  | constE c => simp [processNode, nodeAddsRepository]
  | attr v an =>
    simp only [processNode, nodeAddsRepository]
    rw [propStep_repos]
    simp

theorem processNode_methods_mem (pn : List String) (acc : LcmResult) (e : PExpr) (m : String) :
    m ∈ (processNode pn acc e).methods_called ↔
      m ∈ acc.methods_called ∨ nodeAddsMethodStr e m := by
  cases e with
  | call f args kws =>
    simp only [processNode, nodeAddsMethodStr]
    rw [mutStep_methods_mem, utilStep_methods]
    split_ifs <;> cases f <;> simp_all [foldl_rsa_methods, foldl_roa_methods]
  | name id => simp [processNode, nodeAddsMethodStr]
  | constE c => simp [processNode, nodeAddsMethodStr]
  | attr v an =>
    simp only [processNode, nodeAddsMethodStr]
    rw [propStep_methods_mem]

theorem processNode_factories_nodup (pn : List String) (acc : LcmResult) (e : PExpr)
    (h : acc.factories_used.Nodup) : (processNode pn acc e).factories_used.Nodup := by
  cases e with
  | call f args kws =>
    simp only [processNode]
    rw [mutStep_factories, utilStep_factories]
    split_ifs <;> (try rw [foldl_roa_factories]) <;>
      first
        | exact foldl_rsa_factories_nodup _ _ h
        | exact h
  | name id => exact h
  | constE c => exact h
  | attr v an => rw [processNode, propStep_factories] at *; exact h

theorem processNode_repos_nodup (pn : List String) (acc : LcmResult) (e : PExpr)
    (h : acc.repositories_used.Nodup) : (processNode pn acc e).repositories_used.Nodup := by
  cases e with
  | call f args kws =>
    simp only [processNode]
    rw [mutStep_repos, utilStep_repos]
    split_ifs <;>
      first
        | exact foldl_roa_repos_nodup _ _ (foldl_rsa_repos_nodup _ _ h)
        | exact foldl_roa_repos_nodup _ _ h
        | exact foldl_rsa_repos_nodup _ _ h
        | exact h
  | name id => exact h
  | constE c => exact h
  | attr v an => rw [processNode, propStep_repos] at *; exact h

theorem processNode_methods_nodup (pn : List String) (acc : LcmResult) (e : PExpr)
    (h : acc.methods_called.Nodup) : (processNode pn acc e).methods_called.Nodup := by
  cases e with
  | call f args kws =>
    simp only [processNode]
    refine mutStep_methods_nodup _ _ ?_
    rw [utilStep_methods]
    split_ifs <;>
      simp_all [foldl_rsa_methods, foldl_roa_methods]
  | name id => exact h
  | constE c => exact h
  | attr v an =>
    rw [processNode]
    exact propStep_methods_nodup _ _ h

theorem foldl_processNode_factories_mem (nodes : List PExpr) (pn : List String)
    (acc : LcmResult) (s : String) :
    s ∈ ((nodes.foldl (processNode pn) acc).factories_used) ↔
      s ∈ acc.factories_used ∨ ∃ e ∈ nodes, nodeAddsFactory e s := by
  induction nodes generalizing acc with
  | nil => simp
  | cons a rest ih =>
    rw [List.foldl_cons, ih, processNode_factories_mem]
    constructor
    · rintro ((h | ha) | ⟨e2, he2, hA⟩)
      · exact Or.inl h
      · exact Or.inr ⟨a, List.mem_cons_self a rest, ha⟩
      · exact Or.inr ⟨e2, List.mem_cons_of_mem a he2, hA⟩
    · rintro (h | ⟨e2, he2, hA⟩)
      · exact Or.inl (Or.inl h)
      · rcases List.mem_cons.mp he2 with rfl | hmem
        · exact Or.inl (Or.inr hA)
        · exact Or.inr ⟨e2, hmem, hA⟩

theorem foldl_processNode_repos_mem (nodes : List PExpr) (pn : List String)
    (acc : LcmResult) (s : String) :
    s ∈ ((nodes.foldl (processNode pn) acc).repositories_used) ↔
      s ∈ acc.repositories_used ∨ ∃ e ∈ nodes, nodeAddsRepository e s := by
  induction nodes generalizing acc with
  | nil => simp
  | cons a rest ih =>
    rw [List.foldl_cons, ih, processNode_repos_mem]
    constructor
    · rintro ((h | ha) | ⟨e2, he2, hA⟩)
      · exact Or.inl h
      · exact Or.inr ⟨a, List.mem_cons_self a rest, ha⟩
      · exact Or.inr ⟨e2, List.mem_cons_of_mem a he2, hA⟩
    · rintro (h | ⟨e2, he2, hA⟩)
      · exact Or.inl (Or.inl h)
      · rcases List.mem_cons.mp he2 with rfl | hmem
        · exact Or.inl (Or.inr hA)
        · exact Or.inr ⟨e2, hmem, hA⟩

theorem foldl_processNode_methods_mem (nodes : List PExpr) (pn : List String)
    (acc : LcmResult) (m : String) :
    m ∈ ((nodes.foldl (processNode pn) acc).methods_called) ↔
      m ∈ acc.methods_called ∨ ∃ e ∈ nodes, nodeAddsMethodStr e m := by
  induction nodes generalizing acc with
  | nil => simp
  | cons a rest ih =>
    rw [List.foldl_cons, ih, processNode_methods_mem]
    constructor
    · rintro ((h | ha) | ⟨e2, he2, hA⟩)
      · exact Or.inl h
      · exact Or.inr ⟨a, List.mem_cons_self a rest, ha⟩
      · exact Or.inr ⟨e2, List.mem_cons_of_mem a he2, hA⟩
    · rintro (h | ⟨e2, he2, hA⟩)
      · exact Or.inl (Or.inl h)
      · rcases List.mem_cons.mp he2 with rfl | hmem
        · exact Or.inl (Or.inr hA)
        · exact Or.inr ⟨e2, hmem, hA⟩

theorem foldl_processNode_factories_nodup (nodes : List PExpr) (pn : List String)
    (acc : LcmResult) (h : acc.factories_used.Nodup) :
    ((nodes.foldl (processNode pn) acc).factories_used).Nodup := by
  induction nodes generalizing acc with
  | nil => exact h
  | cons a rest ih => exact ih _ (processNode_factories_nodup _ _ _ h)

theorem foldl_processNode_repos_nodup (nodes : List PExpr) (pn : List String)
    (acc : LcmResult) (h : acc.repositories_used.Nodup) :
    ((nodes.foldl (processNode pn) acc).repositories_used).Nodup := by
  induction nodes generalizing acc with
  | nil => exact h
  | cons a rest ih => exact ih _ (processNode_repos_nodup _ _ _ h)

theorem foldl_processNode_methods_nodup (nodes : List PExpr) (pn : List String)
    (acc : LcmResult) (h : acc.methods_called.Nodup) :
    ((nodes.foldl (processNode pn) acc).methods_called).Nodup := by
  induction nodes generalizing acc with
  | nil => exact h
  | cons a rest ih => exact ih _ (processNode_methods_nodup _ _ _ h)

/-- The walk roots of `extract_lcm_calls` for a function definition. -/
theorem extract_factories_eq (fd : FunctionDef) (imps : List LcmImport) :
    (extract_lcm_calls fd imps).factories_used =
      ((walkBFS (fd.argsF.defaults ++ fd.body ++ fd.decorator_list)).foldl
        (processNode ((fd.argsF.args.map PyArg.arg).filter (fun a => a ≠ "self")))
        { emptyLcmResult with
          transformations := extract_default_transformations fd.argsF }).factories_used := rfl

theorem extract_repos_eq (fd : FunctionDef) (imps : List LcmImport) :
    (extract_lcm_calls fd imps).repositories_used =
      ((walkBFS (fd.argsF.defaults ++ fd.body ++ fd.decorator_list)).foldl
        (processNode ((fd.argsF.args.map PyArg.arg).filter (fun a => a ≠ "self")))
        { emptyLcmResult with
          transformations := extract_default_transformations fd.argsF }).repositories_used := rfl

theorem extract_methods_eq (fd : FunctionDef) (imps : List LcmImport) :
    (extract_lcm_calls fd imps).methods_called =
      ((walkBFS (fd.argsF.defaults ++ fd.body ++ fd.decorator_list)).foldl
        (processNode ((fd.argsF.args.map PyArg.arg).filter (fun a => a ≠ "self")))
        { emptyLcmResult with
          transformations := extract_default_transformations fd.argsF }).methods_called := rfl

theorem dotted_method_str_inj (a b : String)
    (h : "." ++ a ++ "()" = "." ++ b ++ "()") : a = b := by
  have hd := congrArg String.data h
  simp only [String.data_append, List.cons_append, List.nil_append, List.cons.injEq,
    true_and] at hd
  exact String.ext (List.append_cancel_right hd)

/-- C3 (amended): over the whole walked function, an identifier is in the
factories-used list exactly when a GetService/GetInstance call passes it as
a bare positional argument matching the factory pattern; it is in the
repositories-used list exactly when a GetService/GetInstance call passes it
matching the repository but not the factory pattern, or an ObjectsIn call
passes it matching the repository pattern; both lists are duplicate-free. -/
theorem scanner_factory_repository_recording (fd : FunctionDef) (imps : List LcmImport)
    (s : String) :
    (s ∈ (extract_lcm_calls fd imps).factories_used ↔
      ∃ e ∈ walkBFS (fd.argsF.defaults ++ fd.body ++ fd.decorator_list),
        nodeAddsFactory e s) ∧
    (s ∈ (extract_lcm_calls fd imps).repositories_used ↔
      ∃ e ∈ walkBFS (fd.argsF.defaults ++ fd.body ++ fd.decorator_list),
        nodeAddsRepository e s) ∧
    (extract_lcm_calls fd imps).factories_used.Nodup ∧
    (extract_lcm_calls fd imps).repositories_used.Nodup := by
  refine ⟨?_, ?_, ?_, ?_⟩
  · rw [extract_factories_eq, foldl_processNode_factories_mem]
    simp [emptyLcmResult]
  · rw [extract_repos_eq, foldl_processNode_repos_mem]
    simp [emptyLcmResult]
  · rw [extract_factories_eq]
    exact foldl_processNode_factories_nodup _ _ _ List.nodup_nil
  · rw [extract_repos_eq]
    exact foldl_processNode_repos_nodup _ _ _ List.nodup_nil

/-- C3 counterexample: a call whose target contains only `ObjectsIn`, with
a bare positional argument matching `I<Name>Factory`, records nothing in
the factories-used list (the claim requires `ILexEntryFactory` there). -/
theorem objectsIn_factory_argument_not_recorded :
    isObjectsInCall (PExpr.attr (.name "repo") "ObjectsIn") = true ∧
    lcmFactoryMatch "ILexEntryFactory" = true ∧
    (extract_lcm_calls objectsInFactoryFd []).factories_used = [] :=
  ⟨rfl, rfl, rfl⟩

/-- C5 (amended): for every verb of the source's fixed mutation set
(`Create`, `Add`, `Delete`, `Remove`, `Insert`, `Clear`, `MoveTo`), the
string `.verb()` is in the mutation-method list exactly when some call in
the walked function has that verb as its attribute target — regardless of
the receiver — and the list is duplicate-free (one entry per verb). -/
theorem mutation_verb_recording (fd : FunctionDef) (imps : List LcmImport) (v : String)
    (hv : v ∈ MUTATION_METHODS) :
    (("." ++ v ++ "()") ∈ (extract_lcm_calls fd imps).methods_called ↔
      ∃ e ∈ walkBFS (fd.argsF.defaults ++ fd.body ++ fd.decorator_list),
        nodeIsMutationCall e v) ∧
    (extract_lcm_calls fd imps).methods_called.Nodup := by
  constructor
  · rw [extract_methods_eq, foldl_processNode_methods_mem]
    simp only [emptyLcmResult, List.not_mem_nil, false_or]
    constructor
    · rintro ⟨e, he, hadd⟩
      refine ⟨e, he, ?_⟩
      cases e with
      | call f args kws =>
        cases f with
        | attr w mn =>
          obtain ⟨hmem, heq⟩ := hadd
          exact (dotted_method_str_inj v mn heq).symm
        | name id => exact absurd hadd (by simp [nodeAddsMethodStr])
        | constE c => exact absurd hadd (by simp [nodeAddsMethodStr])
        | call a b c => exact absurd hadd (by simp [nodeAddsMethodStr])
      | attr w an =>
        obtain ⟨hmem, heq⟩ := hadd
        have han : an = v := (dotted_method_str_inj v an heq).symm
        subst han
        fin_cases hv <;> simp_all [MULTISTRING_OPS]
      | name id => exact absurd hadd (by simp [nodeAddsMethodStr])
      | constE c => exact absurd hadd (by simp [nodeAddsMethodStr])
    · rintro ⟨e, he, hmut⟩
      refine ⟨e, he, ?_⟩
      cases e with
      | call f args kws =>
        cases f with
        | attr w mn =>
          have : mn = v := hmut
          subst this
          exact ⟨hv, rfl⟩
        | name id => exact absurd hmut (by simp [nodeIsMutationCall])
        | constE c => exact absurd hmut (by simp [nodeIsMutationCall])
        | call a b c => exact absurd hmut (by simp [nodeIsMutationCall])
      | attr w an => exact absurd hmut (by simp [nodeIsMutationCall])
      | name id => exact absurd hmut (by simp [nodeIsMutationCall])
      | constE c => exact absurd hmut (by simp [nodeIsMutationCall])
  · rw [extract_methods_eq]
    exact foldl_processNode_methods_nodup _ _ _ List.nodup_nil

/-- C5 witness: `MoveTo` is in the verb set, and applying the theorem to a
body containing `x.MoveTo()` yields the recorded call node. -/
theorem mutation_verb_recording_witness :
    "MoveTo" ∈ MUTATION_METHODS ∧
    ∃ e ∈ walkBFS (noParamsDecl.defaults ++
        [PExpr.call (.attr (.name "x") "MoveTo") .nil .nil] ++ ([] : List PExpr)),
      nodeIsMutationCall e "MoveTo" := by
  refine ⟨by decide, ?_⟩
  have h := mutation_verb_recording
    (mkSimpleFd "W" [PExpr.call (.attr (.name "x") "MoveTo") .nil .nil]) [] "MoveTo"
    (by decide)
  exact h.1.mp (by decide)

/-- C5 counterexample: `x.Move()` is a call of the claimed verb `move`,
yet the mutation-method list stays empty (the source's verb is `MoveTo`). -/
theorem move_call_not_recorded :
    nodeIsMutationCall (PExpr.call (.attr (.name "x") "Move") .nil .nil) "Move" ∧
    "Move" ∉ MUTATION_METHODS ∧
    (extract_lcm_calls moveCallFd []).methods_called = [] :=
  ⟨rfl, by decide, rfl⟩

/-- C9: an attribute whose name is exactly one of the six cardinality
suffixes is not recorded at all (the scanner leaves its state unchanged),
and whenever the suffix search succeeds the attribute name is strictly
longer than the matched suffix. -/
theorem bare_suffix_attribute_not_recorded :
    (∀ pn (acc : LcmResult) (v : PExpr) (s : String),
      s ∈ ["OA", "OS", "OC", "RA", "RS", "RC"] →
        processNode pn acc (.attr v s) = acc) ∧
    (∀ a p, findSuffix a = some p → p.1.length < a.length) := by
  constructor
  · intro pn acc v s hs
    fin_cases hs <;> rfl
  · intro a p h
    have hp := List.find?_some h
    simp only [Bool.and_eq_true, decide_eq_true_eq] at hp
    exact hp.2

/-- C9 witness: `SensesOS` is recorded with the OwningSequence label (its
name is longer than the suffix), while a bare `OA` attribute leaves the
scanner state untouched. -/
theorem bare_suffix_attribute_not_recorded_witness :
    findSuffix "SensesOS" = some ("OS", "OwningSequence") ∧
    ("OS" : String).length < ("SensesOS" : String).length ∧
    processNode [] emptyLcmResult (.attr (.name "entry") "OA") = emptyLcmResult :=
  ⟨rfl, bare_suffix_attribute_not_recorded.2 "SensesOS" _ rfl,
   bare_suffix_attribute_not_recorded.1 [] emptyLcmResult (.name "entry") "OA" (by decide)⟩

theorem detectHvoNotes_len (source : String) : (detectHvoNotes source).length ≤ 1 := by
  unfold detectHvoNotes
  cases TRANSFORMATION_hvo_resolution.find? (fun p => strContains source p) <;> simp

theorem detectHvoNotes_mem (source : String) :
    ∀ t ∈ detectHvoNotes source, t.ttype = "hvo_resolution" ∧
      t.description = some "Resolves HVO (integer) to object if needed" := by
  unfold detectHvoNotes
  cases TRANSFORMATION_hvo_resolution.find? (fun p => strContains source p) <;> simp

theorem detectWsNotes_len (source : String) : (detectWsNotes source).length ≤ 1 := by
  unfold detectWsNotes
  cases TRANSFORMATION_ws_default.find? (fun p => strContains source p) <;> simp

theorem detectWsNotes_mem (source : String) :
    ∀ t ∈ detectWsNotes source, t.ttype = "ws_default" ∧
      t.description = some "Applies default writing system if not specified" := by
  unfold detectWsNotes
  cases TRANSFORMATION_ws_default.find? (fun p => strContains source p) <;> simp

theorem detectNullNotes_len (source : String) : (detectNullNotes source).length ≤ 1 := by
  unfold detectNullNotes
  split_ifs <;> simp

theorem detectNullNotes_mem (source : String) :
    ∀ t ∈ detectNullNotes source,
      (t.ttype = "null_coalesce" ∧ t.pattern = some "or ''" ∧
        t.description = some "Returns empty string instead of None") ∨
      (t.ttype = "conditional" ∧
        t.description = some "Conditional logic for handling special cases") := by
  unfold detectNullNotes
  split_ifs <;> simp

theorem detectConvNotes_mem (source : String) :
    ∀ t ∈ detectConvNotes source, t.ttype = "type_conversion" ∧
      ∃ p, t.pattern = some p ∧ t.description = some ("Converts to " ++ p) := by
  unfold detectConvNotes
  intro t ht
  simp only [List.mem_map, List.mem_filter] at ht
  obtain ⟨p, _, rfl⟩ := ht
  exact ⟨rfl, rstripParen p, rfl, rfl⟩

theorem detect_transformations_per_family (source : String) :
    countFamily (detect_code_transformations source) "hvo_resolution" ≤ 1 ∧
    countFamily (detect_code_transformations source) "ws_default" ≤ 1 ∧
    countFamily (detect_code_transformations source) "null_coalesce" ≤ 1 ∧
    countFamily (detect_code_transformations source) "conditional" ≤ 1 ∧
    (detect_code_transformations source).Pairwise (fun t1 t2 => famIdx t1 ≤ famIdx t2) ∧
    (∀ t ∈ detect_code_transformations source, t.ttype = "hvo_resolution" →
      t.description = some "Resolves HVO (integer) to object if needed") ∧
    (∀ t ∈ detect_code_transformations source, t.ttype = "ws_default" →
      t.description = some "Applies default writing system if not specified") ∧
    (∀ t ∈ detect_code_transformations source, t.ttype = "null_coalesce" →
      t.description = some "Returns empty string instead of None") ∧
    (∀ t ∈ detect_code_transformations source, t.ttype = "conditional" →
      t.description = some "Conditional logic for handling special cases") ∧
    (∀ t ∈ detect_code_transformations source, t.ttype = "type_conversion" →
      ∃ p, t.pattern = some p ∧ t.description = some ("Converts to " ++ p)) := by
  unfold detect_code_transformations
  split_ifs with hsrc
  · simp [countFamily]
  · have hH := detectHvoNotes_mem source
    have hW := detectWsNotes_mem source
    have hN := detectNullNotes_mem source
    have hC := detectConvNotes_mem source
    have hHl := detectHvoNotes_len source
    have hWl := detectWsNotes_len source
    have hNl := detectNullNotes_len source
    have memCase : ∀ t, t ∈ detectHvoNotes source ++ detectWsNotes source ++
        detectNullNotes source ++ detectConvNotes source →
        t ∈ detectHvoNotes source ∨ t ∈ detectWsNotes source ∨
        t ∈ detectNullNotes source ∨ t ∈ detectConvNotes source := by
      intro t ht
      simp only [List.mem_append] at ht
      tauto
    refine ⟨?_, ?_, ?_, ?_, ?_, ?_, ?_, ?_, ?_, ?_⟩
    · simp only [countFamily, List.countP_append]
      have h1 := le_trans (List.countP_le_length (fun t => t.ttype == "hvo_resolution")) hHl
      have h2 : List.countP (fun t => t.ttype == "hvo_resolution") (detectWsNotes source) = 0 :=
        List.countP_eq_zero.mpr (fun t ht => by simp [(hW t ht).1])
      have h3 : List.countP (fun t => t.ttype == "hvo_resolution") (detectNullNotes source) = 0 :=
        List.countP_eq_zero.mpr (fun t ht => by rcases hN t ht with ⟨h, _, _⟩ | ⟨h, _⟩ <;> simp [h])
      have h4 : List.countP (fun t => t.ttype == "hvo_resolution") (detectConvNotes source) = 0 :=
        List.countP_eq_zero.mpr (fun t ht => by simp [(hC t ht).1])
      omega
    · simp only [countFamily, List.countP_append]
      have h1 : List.countP (fun t => t.ttype == "ws_default") (detectHvoNotes source) = 0 :=
        List.countP_eq_zero.mpr (fun t ht => by simp [(hH t ht).1])
      have h2 := le_trans (List.countP_le_length (fun t => t.ttype == "ws_default")) hWl
      have h3 : List.countP (fun t => t.ttype == "ws_default") (detectNullNotes source) = 0 :=
        List.countP_eq_zero.mpr (fun t ht => by rcases hN t ht with ⟨h, _, _⟩ | ⟨h, _⟩ <;> simp [h])
      have h4 : List.countP (fun t => t.ttype == "ws_default") (detectConvNotes source) = 0 :=
        List.countP_eq_zero.mpr (fun t ht => by simp [(hC t ht).1])
      omega
    · simp only [countFamily, List.countP_append]
      have h1 : List.countP (fun t => t.ttype == "null_coalesce") (detectHvoNotes source) = 0 :=
        List.countP_eq_zero.mpr (fun t ht => by simp [(hH t ht).1])
      have h2 : List.countP (fun t => t.ttype == "null_coalesce") (detectWsNotes source) = 0 :=
        List.countP_eq_zero.mpr (fun t ht => by simp [(hW t ht).1])
      have h3 := le_trans (List.countP_le_length (fun t => t.ttype == "null_coalesce")) hNl
      have h4 : List.countP (fun t => t.ttype == "null_coalesce") (detectConvNotes source) = 0 :=
        List.countP_eq_zero.mpr (fun t ht => by simp [(hC t ht).1])
      omega
    · simp only [countFamily, List.countP_append]
      have h1 : List.countP (fun t => t.ttype == "conditional") (detectHvoNotes source) = 0 :=
        List.countP_eq_zero.mpr (fun t ht => by simp [(hH t ht).1])
      have h2 : List.countP (fun t => t.ttype == "conditional") (detectWsNotes source) = 0 :=
        List.countP_eq_zero.mpr (fun t ht => by simp [(hW t ht).1])
      have h3 := le_trans (List.countP_le_length (fun t => t.ttype == "conditional")) hNl
      have h4 : List.countP (fun t => t.ttype == "conditional") (detectConvNotes source) = 0 :=
        List.countP_eq_zero.mpr (fun t ht => by simp [(hC t ht).1])
      omega
    · have fH : ∀ t ∈ detectHvoNotes source, famIdx t = 0 :=
        fun t ht => by simp [famIdx, (hH t ht).1]
      have fW : ∀ t ∈ detectWsNotes source, famIdx t = 1 :=
        fun t ht => by simp [famIdx, (hW t ht).1]
      have fN : ∀ t ∈ detectNullNotes source, famIdx t = 2 :=
        fun t ht => by rcases hN t ht with ⟨h, _, _⟩ | ⟨h, _⟩ <;> simp [famIdx, h]
      have fC : ∀ t ∈ detectConvNotes source, famIdx t = 3 :=
        fun t ht => by simp [famIdx, (hC t ht).1]
      have fABC : ∀ t ∈ detectHvoNotes source ++ detectWsNotes source ++
          detectNullNotes source, famIdx t ≤ 2 := by
        intro t ht
        rcases List.mem_append.mp ht with ht | ht
        · rcases List.mem_append.mp ht with ht | ht
          · rw [fH t ht]
            omega
          · rw [fW t ht]
            omega
        · rw [fN t ht]
      have fAB : ∀ t ∈ detectHvoNotes source ++ detectWsNotes source,
          famIdx t ≤ 1 := by
        intro t ht
        rcases List.mem_append.mp ht with ht | ht
        · rw [fH t ht]
          omega
        · rw [fW t ht]
      rw [List.pairwise_append]
      refine ⟨?_, ?_, fun a ha b hb => by rw [fC b hb]; exact le_trans (fABC a ha) (by omega)⟩
      · rw [List.pairwise_append]
        refine ⟨?_, ?_, fun a ha b hb => by rw [fN b hb]; exact le_trans (fAB a ha) (by omega)⟩
        · rw [List.pairwise_append]
          refine ⟨?_, ?_, fun a ha b hb => by rw [fH a ha, fW b hb]; omega⟩
          · exact List.pairwise_of_forall_mem_list
              (fun a ha b hb => by rw [fH a ha, fH b hb])
          · exact List.pairwise_of_forall_mem_list
              (fun a ha b hb => by rw [fW a ha, fW b hb])
        · exact List.pairwise_of_forall_mem_list
            (fun a ha b hb => by rw [fN a ha, fN b hb])
      · exact List.pairwise_of_forall_mem_list
          (fun a ha b hb => by rw [fC a ha, fC b hb])
    · intro t ht htype
      rcases memCase t ht with h | h | h | h
      · exact (hH t h).2
      · exact absurd htype (by simp [(hW t h).1])
      · rcases hN t h with ⟨h1, _, _⟩ | ⟨h1, _⟩ <;> simp_all
      · exact absurd htype (by simp [(hC t h).1])
    · intro t ht htype
      rcases memCase t ht with h | h | h | h
      · exact absurd htype (by simp [(hH t h).1])
      · exact (hW t h).2
      · rcases hN t h with ⟨h1, _, _⟩ | ⟨h1, _⟩ <;> simp_all
      · exact absurd htype (by simp [(hC t h).1])
    · intro t ht htype
      rcases memCase t ht with h | h | h | h
      · exact absurd htype (by simp [(hH t h).1])
      · exact absurd htype (by simp [(hW t h).1])
      · rcases hN t h with ⟨_, _, h3⟩ | ⟨h1, _⟩ <;> simp_all
      · exact absurd htype (by simp [(hC t h).1])
    · intro t ht htype
      rcases memCase t ht with h | h | h | h
      · exact absurd htype (by simp [(hH t h).1])
      · exact absurd htype (by simp [(hW t h).1])
      · rcases hN t h with ⟨h1, _, _⟩ | ⟨_, h2⟩ <;> simp_all
      · exact absurd htype (by simp [(hC t h).1])
    · intro t ht htype
      rcases memCase t ht with h | h | h | h
      · exact absurd htype (by simp [(hH t h).1])
      · exact absurd htype (by simp [(hW t h).1])
      · rcases hN t h with ⟨h1, _, _⟩ | ⟨h1, _⟩ <;> simp_all
      · exact (hC t h).2

/-- C4 counterexample: the body `int(str(x))` produces two notes of the
type-coercion family (no `break` in that loop), violating at-most-one-per-
family. -/
theorem two_type_conversion_notes :
    countFamily (extract_lcm_calls doubleConvFd []).transformations "type_conversion" = 2 ∧
    ¬ atMostOnePerFamily (extract_lcm_calls doubleConvFd []).transformations :=
  ⟨by decide, by unfold atMostOnePerFamily; decide⟩

/-- C4 witness: on the source text `GetObject(hvo) or None` the detector
emits the identifier-resolution note with its fixed description. -/
theorem detect_transformations_per_family_witness :
    ∃ t ∈ detect_code_transformations "GetObject(hvo) or None",
      t.ttype = "hvo_resolution" ∧
        t.description = some "Resolves HVO (integer) to object if needed" := by
  have h := detect_transformations_per_family "GetObject(hvo) or None"
  refine ⟨{ ttype := "hvo_resolution", param := none, defaultVal := none,
            pattern := some "GetObject",
            description := some "Resolves HVO (integer) to object if needed" },
    by decide, rfl, ?_⟩
  exact h.2.2.2.2.2.1 _ (by decide) rfl

/-- C6: the four-line docstring `Args:/ws (int): writing system/Returns:/
bool: whether found` parses to exactly one argument entry — `ws`, type
`int`, description `writing system` — and the return-type hint `bool`. -/
theorem docstring_arg_and_return_type_example :
    (parse_docstring
        "Args:\n    ws (int): writing system\nReturns:\n    bool: whether found").args =
      [("ws", { type := "int", description := "writing system" })] ∧
    (parse_docstring
        "Args:\n    ws (int): writing system\nReturns:\n    bool: whether found").return_type =
      "bool" :=
  ⟨rfl, rfl⟩

theorem analyze_method_none_of_underscore (fd : FunctionDef) (cn : String)
    (imps : List LcmImport) (h : strStartsWith fd.name "_" = true)
    (h2 : fd.name ≠ "__init__") : analyze_method fd cn imps = none := by
  unfold analyze_method
  split_ifs with hc
  · rfl
  · exfalso
    apply hc
    simp [h, h2]

theorem analyze_method_init_isSome (fd : FunctionDef) (cn : String)
    (imps : List LcmImport) (h : fd.name = "__init__") :
    (analyze_method fd cn imps).isSome = true := by
  unfold analyze_method
  split_ifs with hc
  · simp [h] at hc
  · rfl

theorem analyze_method_some_name (fd : FunctionDef) (cn : String) (imps : List LcmImport)
    (mi : MethodInfo) (h : analyze_method fd cn imps = some mi) : mi.name = fd.name := by
  unfold analyze_method at h
  split_ifs at h
  injection h with h3
  subst h3
  rfl

theorem fold_members_spec (body : List ClassBodyItem) (cn : String) (imps : List LcmImport) :
    ∀ acc : List MethodInfo × List MethodInfo,
      (body.foldl (classMemberStep cn imps) acc).1 =
        acc.1 ++ (body.flatMap (fun item =>
          match item with
          | ClassBodyItem.funcB f => (analyze_method f cn imps).toList
          | ClassBodyItem.otherB => [])).filter (fun mi => !mi.is_property) ∧
      (body.foldl (classMemberStep cn imps) acc).2 =
        acc.2 ++ (body.flatMap (fun item =>
          match item with
          | ClassBodyItem.funcB f => (analyze_method f cn imps).toList
          | ClassBodyItem.otherB => [])).filter (fun mi => mi.is_property) := by
  induction body with
  | nil => intro acc; simp
  | cons item rest ih =>
    intro acc
    cases item with
    | otherB => simpa using ih acc
    | funcB f =>
      rw [List.foldl_cons]
      cases hm : analyze_method f cn imps with
      | none => simpa [classMemberStep, hm] using ih acc
      | some mi =>
        by_cases hp : mi.is_property
        · have h2 := ih (acc.1, acc.2 ++ [mi])
          have hstep : classMemberStep cn imps acc (ClassBodyItem.funcB f) =
              (acc.1, acc.2 ++ [mi]) := by
            simp [classMemberStep, hm, hp]
          rw [hstep]
          refine ⟨?_, ?_⟩
          · rw [h2.1]
            simp [hm, hp]
          · rw [h2.2]
            simp [hm, hp]
        · have h2 := ih (acc.1 ++ [mi], acc.2)
          have hstep : classMemberStep cn imps acc (ClassBodyItem.funcB f) =
              (acc.1 ++ [mi], acc.2) := by
            simp [classMemberStep, hm, hp]
          rw [hstep]
          refine ⟨?_, ?_⟩
          · rw [h2.1]
            simp [hm, hp]
          · rw [h2.2]
            simp [hm, hp]

theorem analyze_class_methods_eq (cd : ClassDef) (mp : String) (imps : List LcmImport) :
    (analyze_class cd mp imps).methods =
      List.insertionSort methodNameLe
        ((cd.body.foldl (classMemberStep cd.name imps) ([], [])).1) := rfl

theorem analyze_class_properties_eq (cd : ClassDef) (mp : String) (imps : List LcmImport) :
    (analyze_class cd mp imps).properties =
      (cd.body.foldl (classMemberStep cd.name imps) ([], [])).2 := rfl

/-- C10: in every emitted class record the methods list is sorted in
ascending method-name order and is a permutation of the declaration-order
non-property member records, while the properties list is exactly the
declaration-order property records. -/
theorem class_methods_sorted_properties_in_order (cd : ClassDef) (mp : String)
    (imps : List LcmImport) :
    (analyze_class cd mp imps).methods.Pairwise methodNameLe ∧
    ((analyze_class cd mp imps).methods).Perm
      ((analyzedMembers cd imps).filter (fun mi => !mi.is_property)) ∧
    (analyze_class cd mp imps).properties =
      (analyzedMembers cd imps).filter (fun mi => mi.is_property) := by
  refine ⟨?_, ?_, ?_⟩
  · rw [analyze_class_methods_eq]
    exact List.sorted_insertionSort methodNameLe _
  · rw [analyze_class_methods_eq, (fold_members_spec cd.body cd.name imps ([], [])).1]
    simpa [analyzedMembers] using List.perm_insertionSort methodNameLe _
  · rw [analyze_class_properties_eq, (fold_members_spec cd.body cd.name imps ([], [])).2]
    simp [analyzedMembers]

theorem analyzedMembers_name_ok (cd : ClassDef) (imps : List LcmImport) (mi : MethodInfo)
    (h : mi ∈ analyzedMembers cd imps) :
    ¬(strStartsWith mi.name "_" = true ∧ mi.name ≠ "__init__") := by
  rintro ⟨h1, h2⟩
  unfold analyzedMembers at h
  simp only [List.mem_flatMap] at h
  obtain ⟨item, _, hmem⟩ := h
  cases item with
  | otherB => simp at hmem
  | funcB f =>
    dsimp only at hmem
    cases hma : analyze_method f cd.name imps with
    | none => rw [hma] at hmem; simp at hmem
    | some mi2 =>
      rw [hma] at hmem
      simp only [Option.toList_some, List.mem_singleton] at hmem
      subst hmem
      have hn := analyze_method_some_name f cd.name imps mi hma
      rw [hn] at h1 h2
      exact absurd hma (by rw [analyze_method_none_of_underscore f cd.name imps h1 h2]; simp)

/-- C2 (amended): every member function whose name starts with an
underscore — except the constructor `__init__` — yields no method record:
`analyze_method` rejects it, and no record with that name appears in the
emitted class record's methods or properties lists.  `__init__` itself is
always analyzed (and so emitted), so constructors ARE part of the emitted
surface. -/
theorem underscore_members_never_emitted (cd : ClassDef) (mp : String)
    (imps : List LcmImport) (n : String) (hn : strStartsWith n "_" = true)
    (hni : n ≠ "__init__") :
    (∀ fd : FunctionDef, fd.name = n → analyze_method fd cd.name imps = none) ∧
    (∀ mi ∈ (analyze_class cd mp imps).methods, mi.name ≠ n) ∧
    (∀ mi ∈ (analyze_class cd mp imps).properties, mi.name ≠ n) ∧
    (∀ fd : FunctionDef, fd.name = "__init__" →
      (analyze_method fd cd.name imps).isSome = true) := by
  refine ⟨fun fd hf => analyze_method_none_of_underscore fd cd.name imps (hf ▸ hn) (hf ▸ hni),
    ?_, ?_, fun fd hf => analyze_method_init_isSome fd cd.name imps hf⟩
  · intro mi hmi hname
    rw [analyze_class_methods_eq] at hmi
    have h2 := (List.perm_insertionSort methodNameLe _).mem_iff.mp hmi
    rw [(fold_members_spec cd.body cd.name imps ([], [])).1] at h2
    simp only [List.nil_append, List.mem_filter] at h2
    exact analyzedMembers_name_ok cd imps mi h2.1 ⟨hname ▸ hn, hname ▸ hni⟩
  · intro mi hmi hname
    rw [analyze_class_properties_eq,
      (fold_members_spec cd.body cd.name imps ([], [])).2] at hmi
    simp only [List.nil_append, List.mem_filter] at hmi
    exact analyzedMembers_name_ok cd imps mi hmi.1 ⟨hname ▸ hn, hname ▸ hni⟩

/-- C2 witness: `_private` starts with an underscore and differs from
`__init__`; on a concrete class the theorem yields that `analyze_method`
rejects it and the emitted method names avoid it. -/
theorem underscore_members_never_emitted_witness :
    analyze_method (mkSimpleFd "_private" []) "EntryOps" [] = none ∧
    (∀ mi ∈ (analyze_class sampleClass "Lexicon/Entry" []).methods, mi.name ≠ "_private") := by
  have h := underscore_members_never_emitted sampleClass "Lexicon/Entry" [] "_private"
    (by decide) (by decide)
  exact ⟨h.1 (mkSimpleFd "_private" []) rfl, h.2.1⟩

/-- C2 counterexample: `__init__` starts with an underscore, yet a class
whose only member is `__init__` emits it in the methods list — the
constructor is part of the emitted API surface. -/
theorem init_constructor_is_emitted :
    strStartsWith "__init__" "_" = true ∧
    (analyze_class initOnlyClass "Lexicon/C" []).methods.map (fun m => m.name) =
      ["__init__"] :=
  ⟨rfl, rfl⟩

theorem processFileStep_error (st : Report × List String) (bad : SrcFile) (e : String)
    (hbad : bad.parsed = .error e) (hname : strStartsWith bad.fname "__" = false) :
    processFileStep st bad =
      (st.1, st.2 ++ ["[WARN] Error analyzing " ++ bad.path ++ ": " ++ e]) := by
  unfold processFileStep analyze_python_file
  rw [hbad, hname]
  simp

theorem processFileStep_fst (rep : Report) (log log2 : List String) (f : SrcFile) :
    (processFileStep (rep, log) f).1 = (processFileStep (rep, log2) f).1 := by
  unfold processFileStep
  split_ifs
  · rfl
  · rcases hp : analyze_python_file f with ⟨ofi, lg⟩
    simp only [hp]
    cases ofi with
    | none => rfl
    | some fi =>
      dsimp only
      split_ifs <;> rfl

theorem processFileStep_snd (rep : Report) (log : List String) (f : SrcFile) :
    ∃ d, (processFileStep (rep, log) f).2 = log ++ d ∧
      ∀ log2, (processFileStep (rep, log2) f).2 = log2 ++ d := by
  by_cases h1 : strStartsWith f.fname "__" = true
  · refine ⟨[], ?_, fun log2 => ?_⟩ <;> simp [processFileStep, h1]
  · rcases hp : analyze_python_file f with ⟨ofi, lg⟩
    have key : ∀ lg2 : List String, (processFileStep (rep, lg2) f).2 = lg2 ++ lg := by
      intro lg2
      unfold processFileStep
      rw [if_neg h1]
      simp only [hp]
      cases ofi with
      | none => rfl
      | some fi =>
        dsimp only
        split_ifs <;> rfl
    exact ⟨lg, key log, key⟩

theorem foldl_processFileStep_fst (files : List SrcFile) :
    ∀ (rep : Report) (log log2 : List String),
      (files.foldl processFileStep (rep, log)).1 =
        (files.foldl processFileStep (rep, log2)).1 := by
  induction files with
  | nil => intros; rfl
  | cons f rest ih =>
    intro rep log log2
    rw [List.foldl_cons, List.foldl_cons]
    obtain ⟨d, hd, hall⟩ := processFileStep_snd rep log f
    have h1 : processFileStep (rep, log) f = ((processFileStep (rep, log) f).1, log ++ d) := by
      rw [← hd]
    have h2 : processFileStep (rep, log2) f = ((processFileStep (rep, log) f).1, log2 ++ d) := by
      rw [← hall log2, processFileStep_fst rep log log2 f]
    rw [h1, h2]
    exact ih _ _ _

theorem foldl_processFileStep_log (files : List SrcFile) :
    ∀ (rep : Report) (log : List String),
      ∃ t, (files.foldl processFileStep (rep, log)).2 = log ++ t := by
  induction files with
  | nil => intro rep log; exact ⟨[], by simp⟩
  | cons f rest ih =>
    intro rep log
    rw [List.foldl_cons]
    obtain ⟨d, hd, _⟩ := processFileStep_snd rep log f
    have h1 : processFileStep (rep, log) f = ((processFileStep (rep, log) f).1, log ++ d) := by
      rw [← hd]
    rw [h1]
    obtain ⟨t, ht⟩ := ih (processFileStep (rep, log) f).1 (log ++ d)
    exact ⟨d ++ t, by rw [ht, List.append_assoc]⟩

/-- C7: a file whose text fails to parse contributes nothing to the report
— the report over the directory tree with the failing file equals the one
without it, so every remaining file is still processed — while the log
gains a warning naming the file path and the underlying error text, and
the analysis is a total function (no exception escapes). -/
theorem parse_failure_skips_file_only (pre post : List SrcFile) (bad : SrcFile) (e : String)
    (hbad : bad.parsed = .error e) (hname : strStartsWith bad.fname "__" = false) :
    (analyze_flexlibs2 (pre ++ bad :: post)).1 = (analyze_flexlibs2 (pre ++ post)).1 ∧
    ("[WARN] Error analyzing " ++ bad.path ++ ": " ++ e) ∈
      (analyze_flexlibs2 (pre ++ bad :: post)).2 := by
  unfold analyze_flexlibs2
  have hsplit : ∀ init : Report × List String,
      (pre ++ bad :: post).foldl processFileStep init =
        post.foldl processFileStep
          (processFileStep (pre.foldl processFileStep init) bad) := by
    intro init
    rw [List.foldl_append, List.foldl_cons]
  have hsplit2 : ∀ init : Report × List String,
      (pre ++ post).foldl processFileStep init =
        post.foldl processFileStep (pre.foldl processFileStep init) := by
    intro init
    rw [List.foldl_append]
  constructor
  · dsimp only
    rw [hsplit, hsplit2]
    set S := pre.foldl processFileStep
      (({ entities := [], metadata := emptyMetadata, categoriesIdx := [],
          lcm_mapping := [] } : Report), ([] : List String)) with hS
    rw [processFileStep_error S bad e hbad hname]
    have hfst : (post.foldl processFileStep
          (S.1, S.2 ++ ["[WARN] Error analyzing " ++ bad.path ++ ": " ++ e])).1 =
        (post.foldl processFileStep (S.1, S.2)).1 :=
      foldl_processFileStep_fst post S.1 _ S.2
    rw [hfst]
  · dsimp only
    rw [hsplit]
    set S := pre.foldl processFileStep
      (({ entities := [], metadata := emptyMetadata, categoriesIdx := [],
          lcm_mapping := [] } : Report), ([] : List String)) with hS
    rw [processFileStep_error S bad e hbad hname]
    obtain ⟨t, ht⟩ := foldl_processFileStep_log post S.1
      (S.2 ++ ["[WARN] Error analyzing " ++ bad.path ++ ": " ++ e])
    rw [ht]
    simp

/-- C7 witness: with one well-parsed file on either side of the failing
file, the report is the same as without the failing file and the warning
names the path and error text. -/
theorem parse_failure_skips_file_only_witness :
    (analyze_flexlibs2 [goodFile, badFile, goodFile2]).1 =
      (analyze_flexlibs2 [goodFile, goodFile2]).1 ∧
    ("[WARN] Error analyzing /repo/flexlibs2/code/Broken.py: invalid syntax (Broken.py, line 3)") ∈
      (analyze_flexlibs2 [goodFile, badFile, goodFile2]).2 := by
  have h := parse_failure_skips_file_only [goodFile] [goodFile2] badFile
    "invalid syntax (Broken.py, line 3)" rfl (by decide)
  exact h

/-- C8: the cross-reference validator classifies every referenced factory,
repository and interface symbol by key membership in the loaded index, and
its coverage block reports found/total with the percentage
`round(found/total*100, 1)` for a positive total and `100.0` for an empty
reference set. -/
theorem cross_reference_membership_and_coverage (rep : Report) (keys : List String) :
    (∀ s, s ∈ (cross_reference_liblcm rep keys).factories.found ↔
      s ∈ allFactoriesOf rep ∧ s ∈ keys) ∧
    (∀ s, s ∈ (cross_reference_liblcm rep keys).factories.missing ↔
      s ∈ allFactoriesOf rep ∧ s ∉ keys) ∧
    (∀ s, s ∈ (cross_reference_liblcm rep keys).repositories.found ↔
      s ∈ allReposOf rep ∧ s ∈ keys) ∧
    (∀ s, s ∈ (cross_reference_liblcm rep keys).repositories.missing ↔
      s ∈ allReposOf rep ∧ s ∉ keys) ∧
    (∀ s, s ∈ (cross_reference_liblcm rep keys).interfaces.found ↔
      s ∈ rep.metadata.lcm_interfaces_used ∧ s ∈ keys) ∧
    (∀ s, s ∈ (cross_reference_liblcm rep keys).interfaces.missing ↔
      s ∈ rep.metadata.lcm_interfaces_used ∧ s ∉ keys) ∧
    (cross_reference_liblcm rep keys).coverage.total_references =
      (allFactoriesOf rep).length + (allReposOf rep).length +
        rep.metadata.lcm_interfaces_used.length ∧
    (cross_reference_liblcm rep keys).coverage.found_in_liblcm =
      (cross_reference_liblcm rep keys).factories.found.length +
        (cross_reference_liblcm rep keys).repositories.found.length +
        (cross_reference_liblcm rep keys).interfaces.found.length ∧
    ((cross_reference_liblcm rep keys).coverage.total_references = 0 →
      (cross_reference_liblcm rep keys).coverage.coverage_pct = 100) ∧
    (0 < (cross_reference_liblcm rep keys).coverage.total_references →
      (cross_reference_liblcm rep keys).coverage.coverage_pct =
        pyRound1 (((cross_reference_liblcm rep keys).coverage.found_in_liblcm : ℚ) /
          ((cross_reference_liblcm rep keys).coverage.total_references : ℚ) * 100)) := by
  refine ⟨?_, ?_, ?_, ?_, ?_, ?_, rfl, rfl, ?_, ?_⟩
  · intro s
    simp [cross_reference_liblcm, List.mem_filter]
  · intro s
    simp [cross_reference_liblcm, List.mem_filter]
  · intro s
    simp [cross_reference_liblcm, List.mem_filter]
  · intro s
    simp [cross_reference_liblcm, List.mem_filter]
  · intro s
    simp [cross_reference_liblcm, List.mem_filter]
  · intro s
    simp [cross_reference_liblcm, List.mem_filter]
  · intro h0
    simp only [cross_reference_liblcm] at h0 ⊢
    rw [if_neg (by omega)]
  · intro hpos
    simp only [cross_reference_liblcm] at hpos ⊢
    rw [if_pos hpos]

/-- C8 witness: for the report of one analyzed file using
`ILexEntryFactory` and an index holding that key, the factory is
classified found, the total is positive and the theorem gives the rounded
percentage formula. -/
theorem cross_reference_membership_and_coverage_witness :
    "ILexEntryFactory" ∈ (cross_reference_liblcm (analyze_flexlibs2 [goodFile]).1
      ["ILexEntryFactory"]).factories.found ∧
    0 < (cross_reference_liblcm (analyze_flexlibs2 [goodFile]).1
      ["ILexEntryFactory"]).coverage.total_references ∧
    (cross_reference_liblcm (analyze_flexlibs2 [goodFile]).1
        ["ILexEntryFactory"]).coverage.coverage_pct =
      pyRound1 (((cross_reference_liblcm (analyze_flexlibs2 [goodFile]).1
          ["ILexEntryFactory"]).coverage.found_in_liblcm : ℚ) /
        ((cross_reference_liblcm (analyze_flexlibs2 [goodFile]).1
          ["ILexEntryFactory"]).coverage.total_references : ℚ) * 100) := by
  have h := cross_reference_membership_and_coverage (analyze_flexlibs2 [goodFile]).1
    ["ILexEntryFactory"]
  refine ⟨?_, by decide, ?_⟩
  · exact (h.1 "ILexEntryFactory").mpr ⟨by decide, by decide⟩
  · exact h.2.2.2.2.2.2.2.2.2 (by decide)
